import Mathlib

/-!
Verification development for the Kryos SDK (a Node.js client-side telemetry
delivery library).  The JavaScript sources are shallowly embedded: JavaScript
values are modelled by the inductive type `JVal`, JavaScript strings by Lean
`String`, numbers by `Int`/`Nat` (the values relevant to the verified claims
are integral), and fallible operations return `Except`.  Asynchronous
operations are modelled by explicit traces (the retry loop) or by per-item
outcome functions (batch sends, health probes): the SDK runs on a
single-threaded cooperative event loop, so each logical operation is a
deterministic function of its inputs and of the outcomes of the external
calls it performs.
-/

namespace Kryos

/-- A JavaScript value, as needed by the SDK's data paths: `jundef` is
`undefined` (the result of reading an absent property), `jnull` is `null`,
and objects are association lists of own enumerable properties listed in
enumeration order. -/
inductive JVal where
  | jundef
  | jnull
  | jbool (b : Bool)
  | jnum (n : Int)
  | jstr (s : String)
  | jarr (items : List JVal)
  | jobj (fields : List (String × JVal))

namespace JVal

/-- JavaScript truthiness: `undefined`, `null`, `false`, `0` and `""` are
falsy; every object and array is truthy. -/
def truthy : JVal → Bool
  | .jundef => false
  | .jnull => false
  | .jbool b => b
  | .jnum n => n != 0
  | .jstr s => !s.isEmpty
  | .jarr _ => true
  | .jobj _ => true

/-- `typeof v === 'object'`: true for objects, arrays and (a JavaScript
quirk) `null`. -/
def typeofObject : JVal → Bool
  | .jnull => true
  | .jarr _ => true
  | .jobj _ => true
  | _ => false

/-- `Array.isArray v`. -/
def isArray : JVal → Bool
  | .jarr _ => true
  | _ => false

/-- Property read `v[k]`: the first binding of `k` on an object, `undefined`
when the property is absent or the value is not an object. -/
def getField (v : JVal) (k : String) : JVal :=
  match v with
  | .jobj fields =>
    match fields.find? (fun f => f.1 == k) with
    | some f => f.2
    | none => .jundef
  | _ => .jundef

end JVal

/-- Decimal digit character for `n % 10`. -/
def digitCh (n : Nat) : Char :=
  match n with
  | 0 => '0' | 1 => '1' | 2 => '2' | 3 => '3' | 4 => '4'
  | 5 => '5' | 6 => '6' | 7 => '7' | 8 => '8' | _ => '9'

/-- Numeric value of a decimal digit character (0 for non-digits). -/
def chDigit (c : Char) : Nat :=
  match c with
  | '0' => 0 | '1' => 1 | '2' => 2 | '3' => 3 | '4' => 4
  | '5' => 5 | '6' => 6 | '7' => 7 | '8' => 8 | '9' => 9
  | _ => 0

/-- Fuel-driven decimal rendering of a natural number (most significant digit
first); `fuel > n` suffices.  Models the string interpolation of a
JavaScript array index or number. -/
def natChars : Nat → Nat → List Char
  | 0, _ => []
  | fuel + 1, n => if n < 10 then [digitCh n] else natChars fuel (n / 10) ++ [digitCh (n % 10)]

/-- Decimal rendering of a natural number, as JavaScript renders a
non-negative integral number into a template string. -/
def natStr (n : Nat) : String := ⟨natChars (n + 1) n⟩

/-- Decimal rendering of an integer (with leading `-` when negative). -/
def intStr (i : Int) : String :=
  if i < 0 then "-" ++ natStr i.natAbs else natStr i.toNat

/-- SDK configuration object (src/config.js).  Field values are the state of
a `Config` instance; numeric settings are `Int` because they originate from
`parseInt`/caller-supplied numbers (modelling `NaN` as absent at the
`parseInt` interface, see `ConfigLoadInput`). -/
structure Config where
  keyId : Option String
  keySecret : Option String
  baseUrl : String
  enableDefaultMetrics : Bool
  enableLogging : Bool
  timeout : Int
  retryAttempts : Int
  retryDelay : Int
  version : String
  userAgent : String
  customTags : List (String × String)
  serviceName : String
  serviceVersion : String
  environment : String
deriving DecidableEq, Repr

namespace Config

/-- The field values installed by the `Config` constructor (src/config.js,
lines 15-26); fields the constructor does not set are `undefined`, modelled
by their `load`-time defaults being reachable only through `load`. -/
def construct : Config :=
  { keyId := none
    keySecret := none
    baseUrl := "http://localhost:5000/api"
    enableDefaultMetrics := true
    enableLogging := true
    timeout := 30000
    retryAttempts := 3
    retryDelay := 1000
    version := "1.0.0"
    userAgent := "Kryos-NodeJS-SDK/1.0.0"
    customTags := []
    serviceName := "unknown-service"
    serviceVersion := "1.0.0"
    environment := "development" }

/-- `toJSON` (src/config.js, lines 134-148): the JSON view of a loaded
configuration.  `keyId` is masked (`'***' + keyId.slice(-4)`, `null` when the
stored id is falsy); `keySecret` is not part of the returned object. -/
def toJSON (c : Config) : List (String × JVal) :=
  [ ("keyId",
      match c.keyId with
      | some s => if s.isEmpty then .jnull else .jstr ("***" ++ s.drop (s.length - 4))
      | none => .jnull),
    ("baseUrl", .jstr c.baseUrl),
    ("enableDefaultMetrics", .jbool c.enableDefaultMetrics),
    ("enableLogging", .jbool c.enableLogging),
    ("timeout", .jnum c.timeout),
    ("retryAttempts", .jnum c.retryAttempts),
    ("retryDelay", .jnum c.retryDelay),
    ("serviceName", .jstr c.serviceName),
    ("serviceVersion", .jstr c.serviceVersion),
    ("environment", .jstr c.environment),
    ("customTags", .jobj (c.customTags.map (fun t => (t.1, JVal.jstr t.2)))) ]

end Config

/-- The environment variables `Config.load` reads.  String variables are
`Option String` (`none` = unset).  The three numeric variables are modelled
at the `parseInt` interface: the stored value is `parseInt`'s result, with
`none` covering both an unset variable and a non-numeric one (`parseInt`
returns `NaN`, which is falsy, exactly like the unset case on the `||`
chain of src/config.js lines 44-46). -/
structure EnvVars where
  keyId : Option String
  keySecret : Option String
  baseUrl : Option String
  enableMetrics : Option String
  enableLogging : Option String
  timeout : Option Int
  retryAttempts : Option Int
  retryDelay : Option Int
  serviceName : Option String
  serviceVersion : Option String
  nodeEnv : Option String
  environment : Option String

/-- All environment variables unset. -/
def EnvVars.unset : EnvVars :=
  { keyId := none, keySecret := none, baseUrl := none, enableMetrics := none
    enableLogging := none, timeout := none, retryAttempts := none
    retryDelay := none, serviceName := none, serviceVersion := none
    nodeEnv := none, environment := none }

/-- The options object accepted by `Config.load`; `none` models an absent
property. -/
structure LoadOptions where
  keyId : Option String
  keySecret : Option String
  baseUrl : Option String
  enableDefaultMetrics : Option Bool
  enableLogging : Option Bool
  timeout : Option Int
  retryAttempts : Option Int
  retryDelay : Option Int
  customTags : Option (List (String × String))
  serviceName : Option String
  serviceVersion : Option String

/-- An empty options object. -/
def LoadOptions.empty : LoadOptions :=
  { keyId := none, keySecret := none, baseUrl := none
    enableDefaultMetrics := none, enableLogging := none, timeout := none
    retryAttempts := none, retryDelay := none, customTags := none
    serviceName := none, serviceVersion := none }

/-- JavaScript `a || b` for possibly-absent strings (`""` and absence are
falsy; the right operand is returned verbatim). -/
def orStrOpt (a b : Option String) : Option String :=
  match a with
  | some s => if s.isEmpty then b else some s
  | none => b

/-- JavaScript `a || b` where `b` is a known-truthy string default. -/
def orStr (a : Option String) (b : String) : String :=
  match a with
  | some s => if s.isEmpty then b else s
  | none => b

/-- JavaScript `b || c` on numbers: `0`, `NaN` (= `none`) and absence are
falsy. -/
def orNum1 (b : Option Int) (c : Int) : Int :=
  match b with
  | some y => if y == 0 then c else y
  | none => c

/-- JavaScript `a || b || c` on numbers (the
`parseInt(env) || options.x || this.x` chain). -/
def orNum (a b : Option Int) (c : Int) : Int :=
  match a with
  | some x => if x == 0 then orNum1 b c else x
  | none => orNum1 b c

/-- `Config.load` (src/config.js, lines 31-57): merges environment
variables, the caller's options and the current instance state.  `this` is
the prior state of the singleton `Config` (the constructor state on first
use). -/
def Config.load (env : EnvVars) (opts : LoadOptions) (c : Config) : Config :=
  { c with
    keyId := orStrOpt env.keyId opts.keyId
    keySecret := orStrOpt env.keySecret opts.keySecret
    baseUrl := orStr env.baseUrl (orStr opts.baseUrl c.baseUrl)
    enableDefaultMetrics :=
      (env.enableMetrics != some "false") && (opts.enableDefaultMetrics != some false)
    enableLogging :=
      (env.enableLogging != some "false") && (opts.enableLogging != some false)
    timeout := orNum env.timeout opts.timeout c.timeout
    retryAttempts := orNum env.retryAttempts opts.retryAttempts c.retryAttempts
    retryDelay := orNum env.retryDelay opts.retryDelay c.retryDelay
    customTags := opts.customTags.getD []
    serviceName := orStr env.serviceName (orStr opts.serviceName "unknown-service")
    serviceVersion := orStr env.serviceVersion (orStr opts.serviceVersion "1.0.0")
    environment := orStr env.nodeEnv (orStr env.environment "development") }

/-- Trace of one `retryRequest` call (src/api.js, lines 85-101): the value
returned or error thrown (`none` when the loop body never runs, i.e. the
resolved retry ceiling is below the first attempt number), the number of
attempts executed, and the list of sleeps inserted between attempts, in
order, in milliseconds. -/
structure RetryTrace (E A : Type) where
  result : Option (Except E A)
  attempts : Nat
  delays : List Int
deriving Repr

/-- The `for (let attempt = 1; attempt <= retries; attempt++)` loop of
`retryRequest`.  `f k` is the outcome of the `k`-th execution of
`requestFn`; on failure of a non-final attempt the loop sleeps
`delay * attempt` ms and continues; the final attempt's error is rethrown. -/
def retryAux (f : Nat → Except E A) (retries delay : Int) (attempt : Nat) : RetryTrace E A :=
  if h : (attempt : Int) > retries then ⟨none, 0, []⟩
  else
    match f attempt with
    | .ok v => ⟨some (.ok v), 1, []⟩
    | .error e =>
      if (attempt : Int) == retries then ⟨some (.error e), 1, []⟩
      else
        let t := retryAux f retries delay (attempt + 1)
        ⟨t.result, t.attempts + 1, delay * (attempt : Int) :: t.delays⟩
termination_by (retries + 1 - (attempt : Int)).toNat
decreasing_by
  simp only [not_lt] at h
  omega

/-- `retryRequest(requestFn, maxRetries)`: the retry ceiling is
`maxRetries || config.retryAttempts` (so `null` and `0` fall back to the
configured value) and the base delay is `config.retryDelay`. -/
def retryRequest (f : Nat → Except E A) (maxRetries : Option Int) (cfg : Config) :
    RetryTrace E A :=
  let retries :=
    match maxRetries with
    | some m => if m == 0 then cfg.retryAttempts else m
    | none => cfg.retryAttempts
  retryAux f retries cfg.retryDelay 1

/-- A framework error as inspected by `getErrorSeverity`
(src/middleware.js, lines 364-374): only `statusCode` and `name` are read.
`statusCode = some 0` models a present but falsy status code. -/
structure JSError where
  statusCode : Option Int
  name : Option String
deriving DecidableEq, Repr

/-- The name-based fallback of `getErrorSeverity` (lines 370-373). -/
def nameSeverity (e : JSError) : String :=
  if e.name == some "ValidationError" then "warning"
  else if e.name == some "UnauthorizedError" then "warning"
  else "error"

/-- `getErrorSeverity` (src/middleware.js, lines 364-374): a truthy
`statusCode` ≥ 500 is `critical`, ≥ 400 is `warning`; otherwise (including a
truthy status below 400, which falls through the `if` block) the error name
is consulted, with `error` as default. -/
def getErrorSeverity (e : JSError) : String :=
  match e.statusCode with
  | some c =>
    if c != 0 then
      if c ≥ 500 then "critical"
      else if c ≥ 400 then "warning"
      else nameSeverity e
    else nameSeverity e
  | none => nameSeverity e

/-- Severity classification as worded by the claim: `critical` for a carried
status ≥ 500, `warning` for a carried status in `[400, 500)` or a
validation/authorization error name, `error` otherwise. -/
def claimSeverity (e : JSError) : String :=
  if (match e.statusCode with | some c => decide (c ≥ 500) | none => false) then "critical"
  else if (match e.statusCode with | some c => decide (400 ≤ c) && decide (c < 500) | none => false)
       || e.name == some "ValidationError" || e.name == some "UnauthorizedError" then "warning"
  else "error"

/-- A caller-supplied health probe as consumed by the `healthCheck`
middleware (src/middleware.js, lines 274-343): the probe function's `name`
property and the outcome of awaiting it — `.ok status` when the promise
resolves with a result whose `status` field is `status` (`none` models an
absent/undefined field), `.error msg` when it rejects or throws. -/
structure CustomCheck where
  name : Option String
  outcome : Except String (Option String)

/-- `check.name || 'custom'`. -/
def checkName (c : CustomCheck) : String := orStr c.name "custom"

/-- `result.status || 'healthy'`. -/
def checkStatus (s : Option String) : String := orStr s "healthy"

/-- Assignment `m[k] = v` on a JavaScript object modelled as an association
list: an existing key keeps its position and gets the new value, a new key
is appended. -/
def upsert (m : List (String × String)) (k v : String) : List (String × String) :=
  match m with
  | [] => [(k, v)]
  | (k', v') :: rest => if k' == k then (k, v) :: rest else (k', v') :: upsert rest k v

/-- One iteration of the custom-check loop (src/middleware.js, lines
300-314) over the accumulated (overall status, checks map) pair: a resolved
probe records its reported status without touching the overall status; a
throwing probe records `unhealthy` and sets the overall status to
`degraded`. -/
def healthStep (acc : String × List (String × String)) (c : CustomCheck) :
    String × List (String × String) :=
  match c.outcome with
  | .ok s => (acc.1, upsert acc.2 (checkName c) (checkStatus s))
  | .error _ => ("degraded", upsert acc.2 (checkName c) "unhealthy")

/-- The health report assembled by the `healthCheck` middleware: the overall
`status`, the per-check `checks` map (each check's `status` field), and the
`error` field set by the outer catch. -/
structure HealthOutcome where
  status : String
  checks : List (String × String)
  error : Option String
deriving DecidableEq, Repr

/-- The `healthCheck(customChecks)` handler body.  `sys` is the outcome of
the basic system-check region (memory/disk figures, lines 288-297), whose
exception — the only exception that can escape the per-probe try/catch
blocks — lands in the outer catch.  `api` is `none` when no API module is
configured, otherwise the outcome of `this.api.healthCheck()`.  Each custom
probe that resolves has its reported status recorded but leaves the overall
status untouched; a probe that throws records `unhealthy` and downgrades the
overall status to `degraded`, as does a failing API ping. -/
def healthCheckRun (sys : Except String Unit) (customs : List CustomCheck)
    (api : Option (Except String Unit)) : HealthOutcome :=
  match sys with
  | .error m => { status := "unhealthy", checks := [], error := some m }
  | .ok _ =>
    let checks0 := upsert (upsert [] "memory" "healthy") "disk" "healthy"
    let acc1 := customs.foldl healthStep ("healthy", checks0)
    match api with
    | none => { status := acc1.1, checks := acc1.2, error := none }
    | some (.ok _) =>
      { status := acc1.1, checks := upsert acc1.2 "kryosApi" "healthy", error := none }
    | some (.error _) =>
      { status := "degraded", checks := upsert acc1.2 "kryosApi" "unhealthy", error := none }

/-- Overall status as described by the amended reduction rule: `unhealthy`
exactly when an exception escapes the aggregation itself; `degraded` exactly
when a custom probe throws or the configured transport ping fails; `healthy`
otherwise — a probe that merely *reports* a non-healthy status does not
downgrade the overall status. -/
def amendedHealthStatus (sys : Except String Unit) (customs : List CustomCheck)
    (api : Option (Except String Unit)) : String :=
  match sys with
  | .error _ => "unhealthy"
  | .ok _ =>
    if customs.any (fun c => match c.outcome with | .error _ => true | _ => false)
        || (match api with | some (.error _) => true | _ => false) then "degraded"
    else "healthy"

/-- JavaScript line terminators (not matched by `.` in a regex). -/
def isLineTerm (c : Char) : Bool :=
  c == '\n' || c == '\r' || c == '\u2028' || c == '\u2029'

/-- `url.replace(/\/\d+/g, '/:id')`: left-to-right, non-overlapping
replacement of a slash followed by a maximal digit run.  `skipping` is true
while consuming the digits of the current match. -/
def repIdGo (skipping : Bool) : List Char → List Char
  | [] => []
  | c :: rest =>
    if skipping && c.isDigit then repIdGo true rest
    else if c == '/' && (match rest with | d :: _ => d.isDigit | [] => false) then
      '/' :: ':' :: 'i' :: 'd' :: repIdGo true rest
    else c :: repIdGo false rest

/-- The character class `[a-f0-9-]`. -/
def isHexDash (c : Char) : Bool := ('a' ≤ c && c ≤ 'f') || c.isDigit || c == '-'

/-- `url.replace(/\/[a-f0-9-]{36}/g, '/:uuid')`: left-to-right replacement
of a slash followed by exactly 36 characters of the class; `skip` counts the
matched characters still to be consumed. -/
def repUuidGo : Nat → List Char → List Char
  | _, [] => []
  | n + 1, _ :: rest => repUuidGo n rest
  | 0, c :: rest =>
    if c == '/' && (rest.take 36).length == 36 && (rest.take 36).all isHexDash then
      '/' :: ':' :: 'u' :: 'u' :: 'i' :: 'd' :: repUuidGo 36 rest
    else c :: repUuidGo 0 rest

/-- `url.replace(/\?.*$/, '')`: truncates at the first `?` from which the
rest of the string is free of line terminators (so that `.*` can reach the
`$` anchor). -/
def stripQueryGo : List Char → List Char
  | [] => []
  | c :: rest =>
    if c == '?' && rest.all (fun d => !isLineTerm d) then []
    else c :: stripQueryGo rest

/-- The fallback route normalization of `getRoutePattern`
(src/middleware.js, lines 348-359): numeric-segment replacement, then
36-character `[a-f0-9-]` segment replacement, then query-string removal —
applied in exactly that order. -/
def normalizeUrl (s : String) : String :=
  ⟨stripQueryGo (repUuidGo 0 (repIdGo false s.data))⟩

/-- `getRoutePattern(req)`: prefer a truthy `req.route.path`, otherwise
normalize `req.url`. -/
def getRoutePattern (routePath : Option String) (url : String) : String :=
  match routePath with
  | some p => if p.isEmpty then normalizeUrl url else p
  | none => normalizeUrl url

mutual

/-- `flattenAndAddToForm(form, v, pre)` (src/api.js, lines 272-296), as the
list of `(key, value)` pairs appended to the form, in order.  `for..in`
enumerates an object's fields in order and an array's indices `0, 1, …`;
over any other value it performs no iterations. -/
def flattenV : JVal → String → List (String × JVal)
  | .jobj fs, pre => flattenFields fs pre
  | .jarr items, pre => flattenArrFields items 0 pre
  | _, _ => []

/-- The `for (const key in obj)` loop over an object's fields. -/
def flattenFields : List (String × JVal) → String → List (String × JVal)
  | [], _ => []
  | (k, v) :: rest, pre => flattenEntry k v pre ++ flattenFields rest pre

/-- The `for..in` loop over an array reached directly by
`flattenAndAddToForm` (its keys are the index strings). -/
def flattenArrFields : List JVal → Nat → String → List (String × JVal)
  | [], _, _ => []
  | item :: rest, i, pre => flattenEntry (natStr i) item pre ++ flattenArrFields rest (i + 1) pre

/-- One loop-body iteration: `formKey` is the dotted extension of the
prefix; a (truthy, non-array) object recurses, an array is walked inline
with bracket-indexed keys, anything else — including `null`, which is falsy
— is appended as a leaf. -/
def flattenEntry (key : String) (value : JVal) (pre : String) : List (String × JVal) :=
  let fk := if pre.isEmpty then key else pre ++ "." ++ key
  match value with
  | .jobj fs => flattenFields fs fk
  | .jarr items => flattenItems items 0 fk
  | v => [(fk, v)]

/-- The `value.forEach((item, index) => …)` arm: an item of object type
(objects, arrays and `null`) recurses under `fk[i]`, any other item is
appended at `fk[i]`. -/
def flattenItems : List JVal → Nat → String → List (String × JVal)
  | [], _, _ => []
  | item :: rest, i, fk =>
    (if item.typeofObject then flattenV item (fk ++ "[" ++ natStr i ++ "]")
     else [(fk ++ "[" ++ natStr i ++ "]", item)]) ++ flattenItems rest (i + 1) fk

end

/-- Flattening of a payload object into multipart form fields
(`flattenAndAddToForm(formData, data)`, empty initial prefix). -/
def flattenForm (data : JVal) : List (String × JVal) := flattenV data ""

/-- A settled promise outcome, as produced by `Promise.allSettled`. -/
inductive Settled (E V : Type) where
  | fulfilled (value : V)
  | rejected (reason : E)
deriving DecidableEq, Repr

/-- Wraps one promise outcome the way `Promise.allSettled` does. -/
def settleOf : Except E V → Settled E V
  | .ok v => .fulfilled v
  | .error e => .rejected e

/-- The `entries.slice(i, i + batchSize)` chunking of `batchSendEntries`
(src/api.js, lines 344-366) with `batchSize = 10`. -/
def chunksOf10 : List α → List (List α)
  | [] => []
  | x :: xs => ((x :: xs).take 10) :: chunksOf10 ((x :: xs).drop 10)
termination_by l => l.length
decreasing_by
  simp only [List.length_drop, List.length_cons]
  omega

/-- `batchSendEntries(entries)`: rejects a non-array or empty input, then
processes chunks of 10 in order, settling every member independently
(`Promise.allSettled` never rejects, so the loop's catch arm is dead code)
and appending each chunk's outcomes to the result list.  `send` gives the
outcome of `sendEntryData` for one record — each member's outcome is a
function of that member alone. -/
def batchSendEntries (send : α → Except E V) (entries : List α) :
    Except String (List (Settled E V)) :=
  if entries.isEmpty then .error "Entries must be a non-empty array"
  else
    .ok ((chunksOf10 entries).foldl
      (fun acc batch => acc ++ batch.map (fun e => settleOf (send e))) [])

/-- What `fs.statSync(path)` would report for an existing path: a regular
file or anything else (directory, socket, …). -/
inductive FSNode where
  | file
  | other
deriving DecidableEq, Repr

/-- A snapshot of the file system: `none` is a non-existent path
(`fs.existsSync` false). -/
abbrev FileSystem := String → Option FSNode

/-- Character scan underlying `basename`: keeps the component accumulated
since the last `/`. -/
def basenameGo (comp : List Char) : List Char → List Char
  | [] => comp.reverse
  | c :: rest => if c == '/' then basenameGo [] rest else basenameGo (c :: comp) rest

/-- `path.basename`: the component after the last separator.  (Trailing
separators, which `path.basename` strips, do not occur in the inputs of
interest.) -/
def basename (p : String) : String := ⟨basenameGo [] p.data⟩

/-- The file loop of `sendWithFiles` (src/api.js, lines 248-256): each path
is checked with `fs.existsSync` — and only with `existsSync` — before a read
stream for it is appended under the field name `files`; the first missing
path throws, before any request is issued. -/
def collectFileParts (fsys : FileSystem) : List String → Except String (List String)
  | [] => .ok []
  | p :: rest =>
    if (fsys p).isNone then .error ("File not found: " ++ p)
    else (collectFileParts fsys rest).map (fun parts => basename p :: parts)

/-- The multipart HTTP request `sendWithFiles` hands to
`httpClient.post` once all its synchronous preparation succeeded. -/
structure FormRequest where
  endpoint : String
  fields : List (String × JVal)
  fileParts : List String

/-- `sendWithFiles(endpoint, data, filePaths)` (src/api.js, lines 241-267)
up to the network call: flattens the payload into form fields, walks the
file paths, and — when no path was found missing — issues the POST, here
returned as the request value.  An `.error` is thrown before any network
I/O. -/
def sendWithFiles (fsys : FileSystem) (endpoint : String) (data : JVal)
    (filePaths : List String) : Except String FormRequest :=
  (collectFileParts fsys filePaths).map
    (fun parts => { endpoint := endpoint, fields := flattenForm data, fileParts := parts })

/-- Synchronous validation guard of `sendEntryData(entryData, files)`
(src/api.js, lines 136-151): only truthiness of the record and of its
`externalId` and `dataType` fields is checked.  `.ok` means control
proceeds into `retryRequest` with the HTTP post of the unmodified record —
the network/retry phase. -/
def sendEntryData (entryData : JVal) : Except String JVal :=
  if !entryData.truthy || !(entryData.getField "externalId").truthy
      || !(entryData.getField "dataType").truthy then
    .error "Entry data must include externalId and dataType"
  else .ok entryData

mutual

/-- JavaScript string coercion `String(v)` as applied by `RegExp.test` to a
non-string argument. -/
def jsToString : JVal → String
  | .jundef => "undefined"
  | .jnull => "null"
  | .jbool b => if b then "true" else "false"
  | .jnum n => intStr n
  | .jstr s => s
  | .jarr items => jsJoin items
  | .jobj _ => "[object Object]"

/-- `Array.prototype.toString` = `join(',')`. -/
def jsJoin : List JVal → String
  | [] => ""
  | [x] => jsElem x
  | x :: y :: rest => jsElem x ++ "," ++ jsJoin (y :: rest)

/-- One joined element: `null` and `undefined` render empty inside a
join. -/
def jsElem : JVal → String
  | .jundef => ""
  | .jnull => ""
  | v => jsToString v

end

/-- The character set of the JavaScript regex class `\s`. -/
def jsWhitespace (c : Char) : Bool :=
  c == '\t' || c == '\n' || c == '\x0b' || c == '\x0c' || c == '\r' || c == ' ' ||
  c == '\u00a0' || c == '\u1680' || ('\u2000' ≤ c && c ≤ '\u200a') || c == '\u2028' ||
  c == '\u2029' || c == '\u202f' || c == '\u205f' || c == '\u3000' || c == '\ufeff'

/-- The class `[^\s@]`. -/
def emailClassChar (c : Char) : Bool := !jsWhitespace c && c != '@'

/-- `/^[^\s@]+@[^\s@]+\.[^\s@]+$/.test s`: both halves around the single `@`
are non-empty and `[^\s@]`-only, and the half after the `@` contains a `.`
at an interior position (the class includes `.`, so the regex `.` can be any
dot other than the first or last character of that half). -/
def testEmail (s : String) : Bool :=
  let cs := s.data
  let a := cs.takeWhile (fun c => c != '@')
  match cs.drop a.length with
  | '@' :: b =>
    !a.isEmpty && a.all emailClassChar && !b.isEmpty && b.all emailClassChar &&
      ((b.drop 1).dropLast.contains '.')
  | _ => false

/-- `isValidEmail(email)` (src/utils.js): the email regex test, with
JavaScript's string coercion of a non-string argument. -/
def isValidEmail (v : JVal) : Bool := testEmail (jsToString v)

/-- The class `[\d\s\-\(\)]`. -/
def phoneClassChar (c : Char) : Bool :=
  c.isDigit || jsWhitespace c || c == '-' || c == '(' || c == ')'

/-- `/^\+?[\d\s\-\(\)]+$/.test s`. -/
def testPhone (s : String) : Bool :=
  let body := match s.data with
    | '+' :: rest => rest
    | cs => cs
  !body.isEmpty && body.all phoneClassChar

/-- Count of decimal digits, i.e. the length of
`phone.replace(/\D/g, '')`. -/
def digitCount (s : String) : Nat := (s.data.filter Char.isDigit).length

/-- `isValidPhone(phone)` (src/utils.js): pattern test plus at least 10
digits.  (On a non-string argument the source's `.replace` call would throw;
validated records carry string phone numbers, on which this model is
exact.) -/
def isValidPhone (v : JVal) : Bool :=
  testPhone (jsToString v) && decide (digitCount (jsToString v) ≥ 10)

/-- The `{ isValid, errors, warnings }` result of the validation
utilities. -/
structure ValidationResult where
  isValid : Bool
  errors : List String
  warnings : List String
deriving DecidableEq, Repr

/-- `validateUserData(userData)` (src/utils.js): required `externalId`,
`name` and `email`; email format; phone format as a warning; `metadata` must
be of object type when present.  Errors are accumulated in source order. -/
def validateUserData (userData : JVal) : ValidationResult :=
  let errors :=
    (if !(userData.getField "externalId").truthy then ["externalId is required"] else []) ++
    (if !(userData.getField "name").truthy then ["name is required"] else []) ++
    (if !(userData.getField "email").truthy then ["email is required"] else []) ++
    (if (userData.getField "email").truthy && !isValidEmail (userData.getField "email") then
      ["email format is invalid"] else []) ++
    (if (userData.getField "metadata").truthy && !(userData.getField "metadata").typeofObject
     then ["metadata must be an object"] else [])
  let warnings :=
    if (userData.getField "phone").truthy && !isValidPhone (userData.getField "phone") then
      ["phone format may be invalid"] else []
  { isValid := errors.isEmpty, errors := errors, warnings := warnings }

/-- The enumerated `dataType` values (src/middleware.js, line 610). -/
def validDataTypes : List String := ["user_data", "event_data", "custom_data"]

/-- `validateEntryData(entryData)` (src/middleware.js, lines 592-638):
required `externalId`, `dataType` and `data`; `dataType` restricted to the
enumerated set; `data` of object type; `tags` an array; a present `user`
object validated by `validateUserData` with its errors prefixed
`user.`. -/
def validateEntryData (entryData : JVal) : ValidationResult :=
  let dt := entryData.getField "dataType"
  let dat := entryData.getField "data"
  let errors :=
    (if !(entryData.getField "externalId").truthy then ["externalId is required"] else []) ++
    (if !dt.truthy then ["dataType is required"] else []) ++
    (if !dat.truthy then ["data is required"] else []) ++
    (if dt.truthy && !(match dt with | .jstr s => validDataTypes.contains s | _ => false) then
      ["dataType must be one of: user_data, event_data, custom_data"] else []) ++
    (if dat.truthy && !dat.typeofObject then ["data must be an object"] else []) ++
    (if (entryData.getField "tags").truthy && !(entryData.getField "tags").isArray then
      ["tags must be an array"] else []) ++
    (if (entryData.getField "user").truthy then
      (let uv := validateUserData (entryData.getField "user")
       if uv.isValid then [] else uv.errors.map (fun err => "user." ++ err))
     else [])
  { isValid := errors.isEmpty, errors := errors, warnings := [] }

/-- One segment of a flattened key path, as described by the specification:
a dotted object field or a bracket-indexed array position. -/
inductive Seg where
  | dot (k : String)
  | idx (n : Nat)
deriving DecidableEq, Repr

/-- Rendering of one non-leading path segment into the form-key string. -/
def renderSeg : Seg → String
  | .dot k => "." ++ k
  | .idx n => "[" ++ natStr n ++ "]"

/-- Rendering of a segment list. -/
def renderSegs : List Seg → String
  | [] => ""
  | s :: rest => renderSeg s ++ renderSegs rest

/-- The `formKey` computation: `prefix ? prefix + '.' + key : key`. -/
def joinKey (pre k : String) : String := if pre.isEmpty then k else pre ++ "." ++ k

mutual

/-- Structured key paths of `flattenV`: each appended form field as its
leading key together with the segment list that renders to the rest of the
form key. -/
def pathsV : JVal → List ((String × List Seg) × JVal)
  | .jobj fs => pathsFields fs
  | .jarr items => pathsArrFields items 0
  | _ => []

/-- Structured key paths of `flattenFields`. -/
def pathsFields : List (String × JVal) → List ((String × List Seg) × JVal)
  | [] => []
  | (k, v) :: rest => (pathsEntry v).map (fun p => ((k, p.1), p.2)) ++ pathsFields rest

/-- Structured key paths of `flattenArrFields`. -/
def pathsArrFields : List JVal → Nat → List ((String × List Seg) × JVal)
  | [], _ => []
  | item :: rest, i =>
    (pathsEntry item).map (fun p => ((natStr i, p.1), p.2)) ++ pathsArrFields rest (i + 1)

/-- Structured key paths of `flattenEntry` (relative to the entry's own form
key). -/
def pathsEntry : JVal → List (List Seg × JVal)
  | .jobj fs => (pathsFields fs).map (fun p => (Seg.dot p.1.1 :: p.1.2, p.2))
  | .jarr items => pathsItems items 0
  | v => [([], v)]

/-- Structured key paths of `flattenItems` (relative to the enclosing form
key). -/
def pathsItems : List JVal → Nat → List (List Seg × JVal)
  | [], _ => []
  | item :: rest, i =>
    (if item.typeofObject then
      (pathsV item).map (fun p => (Seg.idx i :: Seg.dot p.1.1 :: p.1.2, p.2))
     else [([Seg.idx i], item)]) ++ pathsItems rest (i + 1)

end

/-- A form key component that round-trips: non-empty and free of the `.`,
`[`, `]` separator characters the rendering uses. -/
def goodKey (k : String) : Bool :=
  !k.isEmpty && k.data.all (fun c => c != '.' && c != '[' && c != ']')

/-- A path segment whose rendering is unambiguous. -/
def goodSeg : Seg → Bool
  | .dot k => goodKey k
  | .idx _ => true

mutual

/-- Values on which the flattening is invertible: scalars, and non-empty
objects/arrays with separator-free distinct keys, no `null`/`undefined`
members, and no array nested directly inside an array. -/
def goodVal : JVal → Bool
  | .jstr _ => true
  | .jnum _ => true
  | .jbool _ => true
  | .jundef => false
  | .jnull => false
  | .jobj fs => !fs.isEmpty && goodFields fs
  | .jarr items => !items.isEmpty && goodItems items

/-- Field lists of a round-trippable object. -/
def goodFields : List (String × JVal) → Bool
  | [] => true
  | (k, v) :: rest =>
    goodKey k && goodVal v && !(rest.any (fun q => q.1 == k)) && goodFields rest

/-- Item lists of a round-trippable array. -/
def goodItems : List JVal → Bool
  | [] => true
  | item :: rest => (match item with | .jarr _ => false | v => goodVal v) && goodItems rest

end

/-- Decimal decoding of a digit string (inverse of `natChars`). -/
def decodeChars (l : List Char) : Nat := l.foldl (fun a c => 10 * a + chDigit c) 0

/-- The entry of the C3 scenario: a well-formed record except for a
`dataType` outside the enumerated set. -/
def bogusEntry : JVal :=
  .jobj [("externalId", .jstr "user_1"), ("dataType", .jstr "bogus"),
         ("data", .jobj [("k", .jnum 1)])]

/-- A file system with a single path that exists but is not a regular
file. -/
def dirOnlyFS : FileSystem := fun p => if p = "/tmp/adir" then some .other else none

/-!  ## Theorems  -/

/-- C8: for every framework error, the computed severity is `critical` for a
carried status code ≥ 500, `warning` for a status in `[400, 500)` or the
names `ValidationError`/`UnauthorizedError`, and `error` otherwise. -/
theorem getErrorSeverity_matches_claim (e : JSError) :
    getErrorSeverity e = claimSeverity e := by
  rcases e with ⟨sc, nm⟩
  rcases sc with _ | c
  · simp only [getErrorSeverity, claimSeverity, nameSeverity, Bool.or_eq_true,
      beq_iff_eq, decide_eq_true_eq]
    split_ifs <;> simp_all
  · simp only [getErrorSeverity, claimSeverity, nameSeverity, Bool.or_eq_true,
      beq_iff_eq, decide_eq_true_eq, bne_iff_ne, ne_eq, Bool.and_eq_true]
    split_ifs <;> simp_all <;> omega

/-- C9: `toJSON` never contains the `keySecret` credential and exposes
`keyId` only masked to its last 4 characters; consequently two
configurations that differ only in `keySecret` serialize identically. -/
theorem toJSON_masks_credentials (c : Config) (x : Option String) :
    Config.toJSON { c with keySecret := x } = Config.toJSON c ∧
    (∀ kv ∈ Config.toJSON c, kv.1 ≠ "keySecret") ∧
    (∀ s, c.keyId = some s → ¬s.isEmpty →
      ("keyId", JVal.jstr ("***" ++ s.drop (s.length - 4))) ∈ Config.toJSON c) := by
  refine ⟨rfl, ?_, ?_⟩
  · intro kv hkv
    simp only [Config.toJSON, List.mem_cons, List.not_mem_nil, or_false] at hkv
    rcases hkv with rfl | rfl | rfl | rfl | rfl | rfl | rfl | rfl | rfl | rfl | rfl <;> simp
  · intro s hs hne
    simp [Config.toJSON, hs, hne]

/-- C9 witness: a concrete configuration, with the mask evaluated. -/
theorem toJSON_masks_credentials_witness :
    ("keyId", JVal.jstr "***1234") ∈
      Config.toJSON { Config.construct with keyId := some "ABCD1234",
                                            keySecret := some "topsecret" } := by
  have h := toJSON_masks_credentials
    { Config.construct with keyId := some "ABCD1234", keySecret := some "topsecret" } none
  have h2 := h.2.2 "ABCD1234" rfl (by decide)
  simpa using h2

/-- `a || b || this` on numbers yields `0` only if the fallback `this` is
`0`: every truthy operand taken is non-zero. -/
theorem orNum_eq_zero {a b : Option Int} {c : Int} (h : orNum a b c = 0) : c = 0 := by
  rcases a with _ | x <;> rcases b with _ | y <;>
    simp only [orNum, orNum1] at h <;> (try split_ifs at h) <;> simp_all

/-- C10: `Config.load` treats a supplied `0` (or an absent/non-numeric
value) for `timeout`, `retryAttempts` and `retryDelay` as absent and falls
back to the current values — the constructor defaults `30000`, `3`, `1000`
on a fresh instance — and no `load` can produce a zero retry ceiling or a
zero retry delay from a state in which they are non-zero. -/
theorem load_zero_falls_back :
    (∀ env opts,
      (env.timeout = none ∨ env.timeout = some 0) →
      (env.retryAttempts = none ∨ env.retryAttempts = some 0) →
      (env.retryDelay = none ∨ env.retryDelay = some 0) →
      (opts.timeout = none ∨ opts.timeout = some 0) →
      (opts.retryAttempts = none ∨ opts.retryAttempts = some 0) →
      (opts.retryDelay = none ∨ opts.retryDelay = some 0) →
      (Config.load env opts Config.construct).timeout = 30000 ∧
      (Config.load env opts Config.construct).retryAttempts = 3 ∧
      (Config.load env opts Config.construct).retryDelay = 1000) ∧
    (∀ env opts c, (Config.load env opts c).retryAttempts = 0 → c.retryAttempts = 0) ∧
    (∀ env opts c, (Config.load env opts c).retryDelay = 0 → c.retryDelay = 0) := by
  refine ⟨?_, ?_, ?_⟩
  · intro env opts ht ha hd ot oa od
    refine ⟨?_, ?_, ?_⟩ <;>
      simp only [Config.load] <;>
      rcases ht with h1 | h1 <;> rcases ot with h2 | h2 <;>
      rcases ha with h3 | h3 <;> rcases oa with h4 | h4 <;>
      rcases hd with h5 | h5 <;> rcases od with h6 | h6 <;>
      simp [orNum, orNum1, h1, h2, h3, h4, h5, h6, Config.construct]
  · intro env opts c h
    exact orNum_eq_zero (h := h)
  · intro env opts c h
    exact orNum_eq_zero (h := h)

/-- C10 witness: loading with explicit zeros over a fresh configuration. -/
theorem load_zero_falls_back_witness :
    (Config.load
      { EnvVars.unset with timeout := some 0, retryAttempts := some 0, retryDelay := some 0 }
      { LoadOptions.empty with timeout := some 0, retryAttempts := some 0, retryDelay := some 0 }
      Config.construct).timeout = 30000 ∧
    (Config.load
      { EnvVars.unset with timeout := some 0, retryAttempts := some 0, retryDelay := some 0 }
      { LoadOptions.empty with timeout := some 0, retryAttempts := some 0, retryDelay := some 0 }
      Config.construct).retryAttempts = 3 ∧
    (Config.load
      { EnvVars.unset with timeout := some 0, retryAttempts := some 0, retryDelay := some 0 }
      { LoadOptions.empty with timeout := some 0, retryAttempts := some 0, retryDelay := some 0 }
      Config.construct).retryDelay = 1000 :=
  load_zero_falls_back.1 _ _ (Or.inr rfl) (Or.inr rfl) (Or.inr rfl)
    (Or.inr rfl) (Or.inr rfl) (Or.inr rfl)

/-- The custom-check loop leaves the overall status unchanged unless some
probe throws, in which case it is `degraded`. -/
theorem healthFold_status (customs : List CustomCheck) :
    ∀ st cks, (customs.foldl healthStep (st, cks)).1 =
      if customs.any (fun c => match c.outcome with | .error _ => true | _ => false)
      then "degraded" else st := by
  induction customs with
  | nil => intro st cks; simp
  | cons c rest ih =>
    intro st cks
    rcases hc : c.outcome with v | m <;>
      simp [healthStep, hc, ih, List.any_cons]

/-- C2 counterexample: a single custom probe that *resolves* with status
`unhealthy` leaves the overall status `healthy`, although its own entry in
the checks map says `unhealthy` — the claimed downgrade to `degraded` does
not happen for a probe that reports (rather than throws) unhealthiness. -/
theorem healthCheck_reported_unhealthy_stays_healthy :
    (healthCheckRun (.ok ()) [{ name := none, outcome := .ok (some "unhealthy") }] none).status
      = "healthy" ∧
    ("custom", "unhealthy") ∈
      (healthCheckRun (.ok ()) [{ name := none, outcome := .ok (some "unhealthy") }] none).checks
      := by
  constructor <;> decide

/-- C2 amended: the overall status is `unhealthy` exactly when an exception
escapes the aggregation logic itself; `degraded` exactly when a custom probe
throws or the configured transport ping fails; and `healthy` otherwise — in
particular a probe that merely returns a non-healthy status does not
downgrade the overall status. -/
theorem healthCheck_status_characterization (sys : Except String Unit)
    (customs : List CustomCheck) (api : Option (Except String Unit)) :
    (healthCheckRun sys customs api).status = amendedHealthStatus sys customs api := by
  rcases sys with m | u
  · rfl
  · rcases api with _ | api0
    · simp [healthCheckRun, amendedHealthStatus, healthFold_status]
    · rcases api0 with u0 | m0 <;>
        simp [healthCheckRun, amendedHealthStatus, healthFold_status]

/-- C3 counterexample: an entry whose `dataType` is `"bogus"` — outside the
enumerated set — passes `sendEntryData`'s synchronous validation and
proceeds to the network/retry phase instead of failing validation first. -/
theorem sendEntryData_bogus_reaches_network :
    sendEntryData bogusEntry = .ok bogusEntry := rfl

/-- C3 amended: the send path checks only the *presence* (truthiness) of
`externalId` and `dataType`, so any entry with both present — whatever the
`dataType` value — reaches the network/retry phase; the enumerated-set
restriction lives only in the `validateEntryData` utility, which the send
path does not invoke and which does flag the scenario's entry as invalid. -/
theorem sendEntryData_no_enum_check (e : JVal)
    (h0 : e.truthy = true)
    (h1 : (e.getField "externalId").truthy = true)
    (h2 : (e.getField "dataType").truthy = true) :
    sendEntryData e = .ok e ∧
    (validateEntryData bogusEntry).isValid = false ∧
    "dataType must be one of: user_data, event_data, custom_data" ∈
      (validateEntryData bogusEntry).errors := by
  refine ⟨?_, by decide, by decide⟩
  simp [sendEntryData, h0, h1, h2]

/-- C3 witness: the amended theorem applied to the scenario's entry. -/
theorem sendEntryData_no_enum_check_witness :
    sendEntryData bogusEntry = .ok bogusEntry ∧
    (validateEntryData bogusEntry).isValid = false ∧
    "dataType must be one of: user_data, event_data, custom_data" ∈
      (validateEntryData bogusEntry).errors :=
  sendEntryData_no_enum_check bogusEntry (by decide) (by decide) (by decide)

/-- C4 counterexample: a path that exists but is not a regular file passes
the pre-network check of `sendWithFiles`, so the HTTP request is issued for
that send — the send does not fail before network I/O. -/
theorem sendWithFiles_nonfile_not_rejected :
    (sendWithFiles dirOnlyFS "/data/entries" (JVal.jobj [("externalId", JVal.jstr "u1")])
      ["/tmp/adir"]).isOk = true ∧
    dirOnlyFS "/tmp/adir" = some FSNode.other := ⟨rfl, rfl⟩

/-- `Except.map` preserves `isOk`. -/
theorem isOk_map (f : α → β) (x : Except ε α) : (x.map f).isOk = x.isOk := by
  cases x <;> rfl

/-- C4 amended: `sendWithFiles` fails before any network I/O exactly when
some attached path does not *exist* — existence (`fs.existsSync`) is the
only pre-network check; a path that exists but is not a regular file does
not stop the request. -/
theorem sendWithFiles_ok_iff_all_exist (fsys : FileSystem) (endpoint : String)
    (data : JVal) (ps : List String) :
    (sendWithFiles fsys endpoint data ps).isOk = ps.all (fun p => (fsys p).isSome) := by
  unfold sendWithFiles
  rw [isOk_map]
  induction ps with
  | nil => rfl
  | cons p rest ih =>
    by_cases hp : (fsys p).isSome
    · have hn : ¬(fsys p).isNone := by
        rcases h : fsys p with _ | v <;> simp_all
      simp [collectFileParts, hn, isOk_map, ih, hp]
    · have hn : (fsys p).isNone := by
        rcases h : fsys p with _ | v <;> simp_all
      simp [collectFileParts, hn, hp]
      rfl

/-- Folding chunk after chunk appends exactly the per-record outcomes of the
whole input, in input order. -/
theorem foldl_chunksOf10 (f : α → β) (l : List α) (acc : List β) :
    (chunksOf10 l).foldl (fun a b => a ++ b.map f) acc = acc ++ l.map f := by
  match l with
  | [] => simp [chunksOf10]
  | x :: xs =>
    rw [chunksOf10]
    simp only [List.foldl_cons]
    rw [foldl_chunksOf10 f ((x :: xs).drop 10) (acc ++ ((x :: xs).take 10).map f)]
    rw [List.append_assoc, ← List.map_append, List.take_append_drop]
termination_by l.length
decreasing_by simp only [List.length_drop, List.length_cons]; omega

/-- The number of chunks of 10 is the length divided by 10, rounded up. -/
theorem chunksOf10_length (l : List α) :
    (chunksOf10 l).length = (l.length + 9) / 10 := by
  match l with
  | [] => simp [chunksOf10]
  | x :: xs =>
    rw [chunksOf10]
    simp only [List.length_cons, chunksOf10_length ((x :: xs).drop 10), List.length_drop]
    omega
termination_by l.length
decreasing_by simp only [List.length_drop, List.length_cons]; omega

/-- C7: a non-empty batch send partitions the input into chunks of 10
(`⌈n / 10⌉` chunks, so 3 for 25 records) and resolves to the sequence of
independently settled per-record outcomes, one per input record, in input
order — a member's rejection is recorded in its own slot and leaves every
sibling's outcome untouched. -/
theorem batchSendEntries_per_record (send : α → Except E V) (entries : List α)
    (h : entries ≠ []) :
    batchSendEntries send entries = .ok (entries.map (fun e => settleOf (send e))) ∧
    (chunksOf10 entries).length = (entries.length + 9) / 10 := by
  constructor
  · unfold batchSendEntries
    rw [if_neg (by simpa using h)]
    rw [foldl_chunksOf10]
    rfl
  · exact chunksOf10_length entries

/-- C7 witness: 25 records, alternating success and failure, produce 3
chunks and 25 ordered outcomes. -/
theorem batchSendEntries_per_record_witness :
    batchSendEntries (fun n => if n % 2 = 0 then Except.ok n else Except.error "odd")
        (List.range 25)
      = .ok ((List.range 25).map
          (fun n => settleOf (if n % 2 = 0 then Except.ok n else Except.error "odd"))) ∧
    (chunksOf10 (List.range 25)).length = 3 := by
  have h := batchSendEntries_per_record
    (fun n => if n % 2 = 0 then Except.ok n else Except.error "odd")
    (List.range 25) (by decide)
  exact ⟨h.1, by rw [h.2]; decide⟩

/-- Exhausted retries: starting from attempt `a ≤ N` with every attempt
failing, the loop performs attempts `a, a+1, …, N`, sleeps `delay × k` after
each failed attempt `k < N`, and rethrows the last attempt's error. -/
theorem retryAux_allFail (f : Nat → Except E A) (err : Nat → E)
    (hf : ∀ k, f k = .error (err k)) (N : Nat) (D : Int) (a : Nat)
    (h1 : 1 ≤ a) (h2 : a ≤ N) :
    retryAux f (N : Int) D a =
      ⟨some (.error (err N)), N + 1 - a,
        (List.range (N - a)).map (fun j => D * ((a + j : Nat) : Int))⟩ := by
  by_cases haN : a = N
  · subst haN
    rw [retryAux, dif_neg (by push_cast; omega), hf a]
    simp [RetryTrace.mk.injEq]
  · have hne : ((a : Int) == (N : Int)) = false := by
      simp only [beq_eq_false_iff_ne, ne_eq, Nat.cast_inj]
      omega
    rw [retryAux, dif_neg (by push_cast; omega), hf a,
      retryAux_allFail f err hf N D (a + 1) (by omega) (by omega)]
    simp only [hne, Bool.false_eq_true, if_false, RetryTrace.mk.injEq, true_and]
    refine ⟨by omega, ?_⟩
    have hrange : N - a = (N - (a + 1)) + 1 := by omega
    rw [hrange, List.range_succ_eq_map]
    simp only [List.map_cons, List.map_map, Nat.add_zero]
    congr 1
    apply List.map_congr_left
    intro j hj
    simp only [Function.comp_apply]
    congr 1
    omega
termination_by N - a
decreasing_by omega

/-- C1: a logical send whose request function fails on every attempt, under
a configured retry ceiling `N ≥ 1` and base delay `D`, performs exactly `N`
attempts, sleeps `D × k` milliseconds after failed attempt `k` (i.e. before
attempt `k + 1` — linear, not exponential, backoff: the delays are
`D×1, D×2, …, D×(N−1)`), and rethrows the error of the final attempt to the
caller. -/
theorem retryRequest_always_failing (f : Nat → Except E A) (err : Nat → E)
    (cfg : Config) (N : Nat) (hN : 1 ≤ N) (hcfg : cfg.retryAttempts = (N : Int))
    (hf : ∀ k, f k = .error (err k)) :
    retryRequest f none cfg =
      ⟨some (.error (err N)), N,
        (List.range (N - 1)).map (fun j => cfg.retryDelay * ((1 + j : Nat) : Int))⟩ := by
  unfold retryRequest
  simp only [hcfg]
  rw [retryAux_allFail f err hf N cfg.retryDelay 1 le_rfl hN]
  simp

/-- C1 witness: three attempts at base delay 1000 ms against an
always-failing request — sleeps of 1000 and 2000 ms, the last error
raised. -/
theorem retryRequest_always_failing_witness :
    retryRequest (E := String) (A := Unit) (fun _ => .error "boom") none Config.construct =
      ⟨some (.error "boom"), 3, [1000, 2000]⟩ := by
  have h := retryRequest_always_failing (E := String) (A := Unit)
    (fun _ => .error "boom") (fun _ => "boom")
    Config.construct 3 (by decide) rfl (fun _ => rfl)
  rw [h]
  simp [RetryTrace.mk.injEq, List.range_succ, Config.construct]

/-- C5: evaluation of the fallback route normalization on the
specification's three examples.  The numeric and query examples behave as
claimed, but the UUID example does not: the numeric-segment replacement runs
*first* and consumes `/3` (the slash and the UUID's leading digit run), so
the 36-character rule no longer sees a slash-prefixed 36-character segment
and the route becomes `/users/:idfa85f64-…` instead of the intended
`/users/:uuid`. -/
theorem getRoutePattern_ordering_bug :
    getRoutePattern none "/users/123" = "/users/:id" ∧
    getRoutePattern none "/users/3fa85f64-5717-4562-b3fc-2c963f66afa6"
      = "/users/:idfa85f64-5717-4562-b3fc-2c963f66afa6" ∧
    getRoutePattern none "/users/3fa85f64-5717-4562-b3fc-2c963f66afa6"
      ≠ "/users/:uuid" ∧
    getRoutePattern none "/search?q=x" = "/search" := by
  refine ⟨by decide, by decide, by decide, by decide⟩

/-- Every rendered digit is a decimal digit character. -/
theorem digitCh_isDigit (n : Nat) : (digitCh n).isDigit = true := by
  unfold digitCh
  split <;> decide

/-- Digit decoding inverts digit rendering below 10. -/
theorem chDigit_digitCh (n : Nat) (h : n < 10) : chDigit (digitCh n) = n := by
  interval_cases n <;> decide

/-- Decoding after appending one digit character. -/
theorem decodeChars_append_one (xs : List Char) (c : Char) :
    decodeChars (xs ++ [c]) = 10 * decodeChars xs + chDigit c := by
  unfold decodeChars
  rw [List.foldl_append]
  rfl

/-- With sufficient fuel, decimal decoding inverts decimal rendering. -/
theorem decodeChars_natChars (fuel n : Nat) (h : n < fuel) :
    decodeChars (natChars fuel n) = n := by
  match fuel with
  | fuel' + 1 =>
    rw [natChars]
    by_cases h10 : n < 10
    · rw [if_pos h10]
      show 10 * 0 + chDigit (digitCh n) = n
      rw [chDigit_digitCh n h10]
      omega
    · rw [if_neg h10]
      rw [decodeChars_append_one]
      rw [decodeChars_natChars fuel' (n / 10) (by omega)]
      rw [chDigit_digitCh (n % 10) (by omega)]
      omega

/-- All characters of a decimal rendering are digits. -/
theorem natChars_digits (fuel n : Nat) : ∀ c ∈ natChars fuel n, c.isDigit = true := by
  match fuel with
  | 0 => intro c hc; simp [natChars] at hc
  | fuel' + 1 =>
    intro c hc
    rw [natChars] at hc
    by_cases h10 : n < 10
    · rw [if_pos h10] at hc
      simp at hc
      subst hc
      exact digitCh_isDigit n
    · rw [if_neg h10] at hc
      rcases List.mem_append.1 hc with h1 | h1
      · exact natChars_digits fuel' (n / 10) c h1
      · simp at h1
        subst h1
        exact digitCh_isDigit (n % 10)

/-- Decimal rendering of naturals is injective. -/
theorem natStr_inj (m n : Nat) (h : natStr m = natStr n) : m = n := by
  have hdata : natChars (m + 1) m = natChars (n + 1) n := congrArg String.data h
  have hm := decodeChars_natChars (m + 1) m (by omega)
  have hn := decodeChars_natChars (n + 1) n (by omega)
  rw [hdata] at hm
  omega

/-- The decimal rendering of a natural is never empty. -/
theorem natStr_data_ne_nil (n : Nat) : (natStr n).data ≠ [] := by
  show natChars (n + 1) n ≠ []
  rw [natChars]
  split <;> simp

/-- A string is empty exactly when its character list is. -/
theorem isEmpty_iff_data (s : String) : s.isEmpty = true ↔ s.data = [] := by
  rw [String.isEmpty_iff]
  constructor
  · intro h
    rw [h]
  · intro h
    apply String.ext
    rw [h]

/-- Splitting a concatenation at a separator boundary: if both left parts
are free of separator-class characters and both right parts are empty or
start with one, the parts coincide. -/
theorem token_split (S : Char → Bool) :
    ∀ (a₁ a₂ r₁ r₂ : List Char), a₁ ++ r₁ = a₂ ++ r₂ →
      (∀ c ∈ a₁, S c = false) → (∀ c ∈ a₂, S c = false) →
      (∀ c ∈ r₁.head?, S c = true) → (∀ c ∈ r₂.head?, S c = true) →
      a₁ = a₂ ∧ r₁ = r₂ := by
  intro a₁
  induction a₁ with
  | nil =>
    intro a₂ r₁ r₂ heq h1 h2 hr1 hr2
    cases a₂ with
    | nil => exact ⟨rfl, heq⟩
    | cons c a₂' =>
      exfalso
      rw [List.nil_append] at heq
      have hc : S c = true := hr1 c (by rw [heq]; simp)
      have hc' : S c = false := h2 c (by simp)
      rw [hc'] at hc
      exact Bool.false_ne_true hc
  | cons c a₁' ih =>
    intro a₂ r₁ r₂ heq h1 h2 hr1 hr2
    cases a₂ with
    | nil =>
      exfalso
      rw [List.nil_append] at heq
      have hc : S c = true := hr2 c (by rw [← heq]; simp)
      have hc' : S c = false := h1 c (by simp)
      rw [hc'] at hc
      exact Bool.false_ne_true hc
    | cons d a₂' =>
      simp only [List.cons_append, List.cons.injEq] at heq
      obtain ⟨rfl, heq'⟩ := heq
      obtain ⟨he, hr⟩ := ih a₂' r₁ r₂ heq'
        (fun x hx => h1 x (by simp [hx])) (fun x hx => h2 x (by simp [hx])) hr1 hr2
      exact ⟨by rw [he], hr⟩

/-- The separator class opening a rendered segment. -/
def segOpen (c : Char) : Bool := c == '.' || c == '['

/-- A rendered segment list is empty or starts with `.` or `[`. -/
theorem renderSegs_head (sg : List Seg) :
    ∀ c ∈ (renderSegs sg).data.head?, segOpen c = true := by
  cases sg with
  | nil => intro c hc; simp [renderSegs] at hc
  | cons s rest =>
    intro c hc
    cases s <;>
      simp [renderSegs, renderSeg, String.data_append, segOpen] at hc ⊢
    · exact Or.inl hc.symm
    · exact Or.inr hc.symm

/-- A digit character is not a separator. -/
theorem isDigit_not_sep (c : Char) (h : c.isDigit = true) :
    segOpen c = false ∧ (c == ']') = false := by
  refine ⟨?_, ?_⟩
  · unfold segOpen
    have h1 : c ≠ '.' := fun hh => by subst hh; exact absurd h (by decide)
    have h2 : c ≠ '[' := fun hh => by subst hh; exact absurd h (by decide)
    simp [h1, h2]
  · have h3 : c ≠ ']' := fun hh => by subst hh; exact absurd h (by decide)
    simp [h3]

/-- Characters of a good key are not separators. -/
theorem goodKey_not_sep (k : String) (h : goodKey k = true) :
    ∀ c ∈ k.data, segOpen c = false ∧ (c == ']') = false := by
  intro c hc
  unfold goodKey at h
  simp only [Bool.and_eq_true, List.all_eq_true] at h
  have := h.2 c hc
  simp only [Bool.and_eq_true, bne_iff_ne, ne_eq] at this
  unfold segOpen
  simp [this.1.1, this.1.2, this.2]

/-- Rendering of good segment lists is injective. -/
theorem renderSegs_inj : ∀ (sg₁ sg₂ : List Seg), sg₁.all goodSeg = true →
    sg₂.all goodSeg = true → renderSegs sg₁ = renderSegs sg₂ → sg₁ = sg₂ := by
  intro sg₁
  induction sg₁ with
  | nil =>
    intro sg₂ h1 h2 heq
    cases sg₂ with
    | nil => rfl
    | cons s rest =>
      exfalso
      have hd := congrArg String.data heq
      cases s <;> simp [renderSegs, renderSeg, String.data_append] at hd
  | cons s₁ r₁ ih =>
    intro sg₂ h1 h2 heq
    cases sg₂ with
    | nil =>
      exfalso
      have hd := congrArg String.data heq
      cases s₁ <;> simp [renderSegs, renderSeg, String.data_append] at hd
    | cons s₂ r₂ =>
      have hd := congrArg String.data heq
      simp only [List.all_cons, Bool.and_eq_true] at h1 h2
      cases s₁ with
      | dot k₁ =>
        cases s₂ with
        | dot k₂ =>
          simp only [renderSegs, renderSeg, String.data_append, List.cons_append,
            List.append_assoc, List.cons.injEq, true_and] at hd
          have hsplit := token_split segOpen k₁.data k₂.data
            (renderSegs r₁).data (renderSegs r₂).data hd
            (fun c hc => (goodKey_not_sep k₁ h1.1 c hc).1)
            (fun c hc => (goodKey_not_sep k₂ h2.1 c hc).1)
            (renderSegs_head r₁) (renderSegs_head r₂)
          have hk : k₁ = k₂ := String.ext hsplit.1
          have hr : renderSegs r₁ = renderSegs r₂ := String.ext hsplit.2
          rw [hk, ih r₂ h1.2 h2.2 hr]
        | idx n₂ =>
          exfalso
          simp [renderSegs, renderSeg, String.data_append] at hd
      | idx n₁ =>
        cases s₂ with
        | dot k₂ =>
          exfalso
          simp [renderSegs, renderSeg, String.data_append] at hd
        | idx n₂ =>
          simp only [renderSegs, renderSeg, String.data_append, List.cons_append,
            List.append_assoc, List.cons.injEq, true_and] at hd
          have hsplit := token_split (fun c => c == ']') (natStr n₁).data (natStr n₂).data
            (']' :: (renderSegs r₁).data) (']' :: (renderSegs r₂).data) hd
            (fun c hc => (isDigit_not_sep c (natChars_digits (n₁ + 1) n₁ c hc)).2)
            (fun c hc => (isDigit_not_sep c (natChars_digits (n₂ + 1) n₂ c hc)).2)
            (by intro c hc; simp at hc; simp [hc.symm])
            (by intro c hc; simp at hc; simp [hc.symm])
          have hn : n₁ = n₂ := natStr_inj n₁ n₂ (String.ext hsplit.1)
          have hr : renderSegs r₁ = renderSegs r₂ := by
            apply String.ext
            have := hsplit.2
            simpa using this
          rw [hn, ih r₂ h1.2 h2.2 hr]

/-- With a non-empty prefix, `formKey` is the dotted concatenation. -/
theorem joinKey_of_ne (pre k : String) (h : pre.isEmpty = false) :
    joinKey pre k = pre ++ "." ++ k := by
  unfold joinKey
  rw [if_neg (by simp [h])]

/-- A form key built over a non-empty prefix is non-empty. -/
theorem joinKey_not_empty (pre k : String) (h : pre.isEmpty = false) :
    (joinKey pre k).isEmpty = false := by
  rw [joinKey_of_ne pre k h]
  rcases hv : (pre ++ "." ++ k).isEmpty with _ | _
  · rfl
  · exfalso
    have := (isEmpty_iff_data _).1 hv
    simp [String.data_append] at this

/-- A bracket-indexed key is non-empty. -/
theorem bracketKey_not_empty (fk : String) (i : Nat) :
    (fk ++ "[" ++ natStr i ++ "]").isEmpty = false := by
  rcases hv : (fk ++ "[" ++ natStr i ++ "]").isEmpty with _ | _
  · rfl
  · exfalso
    have := (isEmpty_iff_data _).1 hv
    simp [String.data_append] at this

mutual

/-- `flattenV` renders exactly the structured key paths of `pathsV`. -/
theorem flattenV_paths (v : JVal) (pre : String) (hpre : pre.isEmpty = false) :
    flattenV v pre =
      (pathsV v).map (fun p => (joinKey pre p.1.1 ++ renderSegs p.1.2, p.2)) := by
  cases v with
  | jobj fs =>
    rw [flattenV, pathsV]
    exact flattenFields_paths fs pre hpre
  | jarr items =>
    rw [flattenV, pathsV]
    exact flattenArrFields_paths items 0 pre hpre
  | jundef => simp [flattenV, pathsV]
  | jnull => simp [flattenV, pathsV]
  | jbool b => simp [flattenV, pathsV]
  | jnum n => simp [flattenV, pathsV]
  | jstr s => simp [flattenV, pathsV]

/-- `flattenFields` renders exactly the structured key paths of
`pathsFields`. -/
theorem flattenFields_paths (fs : List (String × JVal)) (pre : String)
    (hpre : pre.isEmpty = false) :
    flattenFields fs pre =
      (pathsFields fs).map (fun p => (joinKey pre p.1.1 ++ renderSegs p.1.2, p.2)) := by
  match fs with
  | [] => simp [flattenFields, pathsFields]
  | (k, v) :: rest =>
    rw [flattenFields, pathsFields, List.map_append, List.map_map]
    rw [flattenEntry_paths k v pre (joinKey_not_empty pre k hpre)]
    rw [flattenFields_paths rest pre hpre]
    rfl

/-- `flattenArrFields` renders exactly the structured key paths of
`pathsArrFields`. -/
theorem flattenArrFields_paths (items : List JVal) (i : Nat) (pre : String)
    (hpre : pre.isEmpty = false) :
    flattenArrFields items i pre =
      (pathsArrFields items i).map
        (fun p => (joinKey pre p.1.1 ++ renderSegs p.1.2, p.2)) := by
  match items with
  | [] => simp [flattenArrFields, pathsArrFields]
  | item :: rest =>
    rw [flattenArrFields, pathsArrFields, List.map_append, List.map_map]
    rw [flattenEntry_paths (natStr i) item pre (joinKey_not_empty pre (natStr i) hpre)]
    rw [flattenArrFields_paths rest (i + 1) pre hpre]
    rfl

/-- `flattenEntry` renders exactly the structured key paths of
`pathsEntry`, relative to the entry's form key. -/
theorem flattenEntry_paths (key : String) (value : JVal) (pre : String)
    (hfk : (joinKey pre key).isEmpty = false) :
    flattenEntry key value pre =
      (pathsEntry value).map
        (fun p => (joinKey pre key ++ renderSegs p.1, p.2)) := by
  cases value with
  | jobj fs =>
    show flattenFields fs (joinKey pre key) = _
    rw [flattenFields_paths fs (joinKey pre key) hfk, pathsEntry, List.map_map]
    apply List.map_congr_left
    intro p hp
    simp only [Function.comp_apply]
    rw [renderSegs, renderSeg, joinKey_of_ne _ _ hfk]
    simp [String.append_assoc]
  | jarr items =>
    show flattenItems items 0 (joinKey pre key) = _
    rw [flattenItems_paths items 0 (joinKey pre key), pathsEntry]
  | jundef => simp [flattenEntry, pathsEntry, renderSegs, String.append_empty, joinKey]
  | jnull => simp [flattenEntry, pathsEntry, renderSegs, String.append_empty, joinKey]
  | jbool b => simp [flattenEntry, pathsEntry, renderSegs, String.append_empty, joinKey]
  | jnum n => simp [flattenEntry, pathsEntry, renderSegs, String.append_empty, joinKey]
  | jstr s => simp [flattenEntry, pathsEntry, renderSegs, String.append_empty, joinKey]

/-- `flattenItems` renders exactly the structured key paths of
`pathsItems`, relative to the enclosing form key. -/
theorem flattenItems_paths (items : List JVal) (i : Nat) (fk : String) :
    flattenItems items i fk =
      (pathsItems items i).map (fun p => (fk ++ renderSegs p.1, p.2)) := by
  match items with
  | [] => simp [flattenItems, pathsItems]
  | item :: rest =>
    rw [flattenItems, pathsItems, List.map_append]
    rw [flattenItems_paths rest (i + 1) fk]
    congr 1
    by_cases hobj : item.typeofObject = true
    · rw [if_pos hobj, if_pos hobj]
      rw [flattenV_paths item (fk ++ "[" ++ natStr i ++ "]") (bracketKey_not_empty fk i)]
      rw [List.map_map]
      apply List.map_congr_left
      intro p hp
      simp only [Function.comp_apply]
      rw [renderSegs, renderSeg, renderSegs, renderSeg,
        joinKey_of_ne _ _ (bracketKey_not_empty fk i)]
      simp only [String.append_assoc]
    · rw [if_neg hobj, if_neg hobj]
      simp [renderSegs, renderSeg, String.append_assoc, String.append_empty]

end

/-- Splitting equal concatenations when every element of the left parts
satisfies `P` and the right parts are empty or start with a non-`P`
element. -/
theorem split_append_by {α : Type} (P : α → Prop) :
    ∀ (a₁ b₁ a₂ b₂ : List α), a₁ ++ b₁ = a₂ ++ b₂ →
      (∀ x ∈ a₁, P x) → (∀ x ∈ a₂, P x) →
      (∀ x ∈ b₁.head?, ¬P x) → (∀ x ∈ b₂.head?, ¬P x) →
      a₁ = a₂ ∧ b₁ = b₂ := by
  intro a₁
  induction a₁ with
  | nil =>
    intro b₁ a₂ b₂ heq h1 h2 hr1 hr2
    cases a₂ with
    | nil => exact ⟨rfl, heq⟩
    | cons c a₂' =>
      exfalso
      rw [List.nil_append] at heq
      exact hr1 c (by rw [heq]; simp) (h2 c (by simp))
  | cons c a₁' ih =>
    intro b₁ a₂ b₂ heq h1 h2 hr1 hr2
    cases a₂ with
    | nil =>
      exfalso
      rw [List.nil_append] at heq
      exact hr2 c (by rw [← heq]; simp) (h1 c (by simp))
    | cons d a₂' =>
      simp only [List.cons_append, List.cons.injEq] at heq
      obtain ⟨rfl, heq'⟩ := heq
      obtain ⟨he, hr⟩ := ih b₁ a₂' b₂ heq'
        (fun x hx => h1 x (by simp [hx])) (fun x hx => h2 x (by simp [hx])) hr1 hr2
      exact ⟨by rw [he], hr⟩

/-- Inversion for a good item-list head: the item is good, not an array,
and the tail is good. -/
theorem goodItems_cons {item : JVal} {rest : List JVal} (h : goodItems (item :: rest) = true) :
    goodVal item = true ∧ item.isArray = false ∧ goodItems rest = true := by
  cases item <;> simp_all [goodItems, goodVal, JVal.isArray]

mutual

/-- For a good value, the path list of an object entry is non-empty. -/
theorem pathsEntry_ne_nil (v : JVal) (h : goodVal v = true) : pathsEntry v ≠ [] := by
  cases v with
  | jundef => simp [goodVal] at h
  | jnull => simp [goodVal] at h
  | jbool b => simp [pathsEntry]
  | jnum n => simp [pathsEntry]
  | jstr s => simp [pathsEntry]
  | jobj fs =>
    rw [goodVal, Bool.and_eq_true] at h
    rw [pathsEntry]
    simp only [ne_eq, List.map_eq_nil_iff]
    exact pathsFields_ne_nil fs h.2 (by simpa using h.1)
  | jarr items =>
    rw [goodVal, Bool.and_eq_true] at h
    rw [pathsEntry]
    exact pathsItems_ne_nil items 0 h.2 (by simpa using h.1)

/-- For good, non-empty field lists the path list is non-empty. -/
theorem pathsFields_ne_nil (fs : List (String × JVal)) (h : goodFields fs = true)
    (hne : fs ≠ []) : pathsFields fs ≠ [] := by
  match fs with
  | [] => exact absurd rfl hne
  | (k, v) :: rest =>
    rw [goodFields, Bool.and_eq_true, Bool.and_eq_true, Bool.and_eq_true] at h
    rw [pathsFields]
    simp only [ne_eq, List.append_eq_nil, List.map_eq_nil_iff, not_and]
    intro hblock
    exact absurd hblock (pathsEntry_ne_nil v h.1.1.2)

/-- For good, non-empty item lists the path list is non-empty. -/
theorem pathsItems_ne_nil (items : List JVal) (i : Nat) (h : goodItems items = true)
    (hne : items ≠ []) : pathsItems items i ≠ [] := by
  match items with
  | [] => exact absurd rfl hne
  | item :: rest =>
    obtain ⟨hgood, hnarr, hrest⟩ := goodItems_cons h
    rw [pathsItems]
    simp only [ne_eq, List.append_eq_nil, not_and]
    intro hblock
    cases item with
    | jarr its => simp [JVal.isArray] at hnarr
    | jnull => simp [goodVal] at hgood
    | jundef => simp [goodVal] at hgood
    | jobj fs =>
      rw [if_pos (by simp [JVal.typeofObject])] at hblock
      rw [pathsV] at hblock
      rw [goodVal, Bool.and_eq_true] at hgood
      simp only [List.map_eq_nil_iff] at hblock
      exact absurd hblock (pathsFields_ne_nil fs hgood.2 (by simpa using hgood.1))
    | jbool b => rw [if_neg (by simp [JVal.typeofObject])] at hblock; simp at hblock
    | jnum n => rw [if_neg (by simp [JVal.typeofObject])] at hblock; simp at hblock
    | jstr s => rw [if_neg (by simp [JVal.typeofObject])] at hblock; simp at hblock

end

mutual

/-- Paths of good field lists carry good keys and good segments. -/
theorem pathsFields_good (fs : List (String × JVal)) (h : goodFields fs = true) :
    ∀ p ∈ pathsFields fs, goodKey p.1.1 = true ∧ p.1.2.all goodSeg = true := by
  match fs with
  | [] => intro p hp; simp [pathsFields] at hp
  | (k, v) :: rest =>
    intro p hp
    rw [goodFields, Bool.and_eq_true, Bool.and_eq_true, Bool.and_eq_true] at h
    rw [pathsFields] at hp
    rcases List.mem_append.1 hp with hb | hb
    · obtain ⟨q, hq, rfl⟩ := List.mem_map.1 hb
      exact ⟨h.1.1.1, pathsEntry_good v h.1.1.2 q hq⟩
    · exact pathsFields_good rest h.2 p hb

/-- Paths of a good entry value carry good segments. -/
theorem pathsEntry_good (v : JVal) (h : goodVal v = true) :
    ∀ p ∈ pathsEntry v, p.1.all goodSeg = true := by
  cases v with
  | jundef => simp [goodVal] at h
  | jnull => simp [goodVal] at h
  | jbool b => intro p hp; simp [pathsEntry] at hp; simp [hp]
  | jnum n => intro p hp; simp [pathsEntry] at hp; simp [hp]
  | jstr s => intro p hp; simp [pathsEntry] at hp; simp [hp]
  | jobj fs =>
    intro p hp
    rw [goodVal, Bool.and_eq_true] at h
    rw [pathsEntry] at hp
    obtain ⟨q, hq, rfl⟩ := List.mem_map.1 hp
    have hg := pathsFields_good fs h.2 q hq
    simp [List.all_cons, goodSeg, hg.1, hg.2]
  | jarr items =>
    intro p hp
    rw [goodVal, Bool.and_eq_true] at h
    rw [pathsEntry] at hp
    exact pathsItems_good items 0 h.2 p hp

/-- Paths of good item lists carry good segments. -/
theorem pathsItems_good (items : List JVal) (i : Nat) (h : goodItems items = true) :
    ∀ p ∈ pathsItems items i, p.1.all goodSeg = true := by
  match items with
  | [] => intro p hp; simp [pathsItems] at hp
  | item :: rest =>
    intro p hp
    rw [pathsItems] at hp
    obtain ⟨hgood, hnarr, hrest⟩ := goodItems_cons h
    rcases List.mem_append.1 hp with hb | hb
    · cases item with
      | jarr its => simp [JVal.isArray] at hnarr
      | jnull => simp [goodVal] at hgood
      | jundef => simp [goodVal] at hgood
      | jobj fs =>
        rw [if_pos (by simp [JVal.typeofObject])] at hb
        rw [goodVal, Bool.and_eq_true] at hgood
        rw [pathsV] at hb
        obtain ⟨q, hq, rfl⟩ := List.mem_map.1 hb
        have hgq := pathsFields_good fs hgood.2 q hq
        simp [List.all_cons, goodSeg, hgq.1, hgq.2]
      | jbool b =>
        rw [if_neg (by simp [JVal.typeofObject])] at hb
        simp at hb
        simp [hb, List.all_cons, goodSeg]
      | jnum n =>
        rw [if_neg (by simp [JVal.typeofObject])] at hb
        simp at hb
        simp [hb, List.all_cons, goodSeg]
      | jstr str =>
        rw [if_neg (by simp [JVal.typeofObject])] at hb
        simp at hb
        simp [hb, List.all_cons, goodSeg]
    · exact pathsItems_good rest (i + 1) hrest p hb

end

/-- Every path of a field list leads with one of its keys. -/
theorem pathsFields_keys (fs : List (String × JVal)) :
    ∀ p ∈ pathsFields fs, p.1.1 ∈ fs.map Prod.fst := by
  induction fs with
  | nil => intro p hp; simp [pathsFields] at hp
  | cons q rest ih =>
    obtain ⟨k, v⟩ := q
    intro p hp
    rw [pathsFields] at hp
    rcases List.mem_append.1 hp with hb | hb
    · obtain ⟨e, he, rfl⟩ := List.mem_map.1 hb
      simp
    · simp only [List.map_cons, List.mem_cons]
      exact Or.inr (ih p hb)

/-- Every path of an item list starts with a bracket index at least the
running index. -/
theorem pathsItems_idx (items : List JVal) :
    ∀ (i : Nat), ∀ p ∈ pathsItems items i, ∃ j, i ≤ j ∧ ∃ t, p.1 = Seg.idx j :: t := by
  induction items with
  | nil => intro i p hp; simp [pathsItems] at hp
  | cons item rest ih =>
    intro i p hp
    rw [pathsItems] at hp
    rcases List.mem_append.1 hp with hb | hb
    · by_cases hobj : item.typeofObject = true
      · rw [if_pos hobj] at hb
        obtain ⟨e, he, rfl⟩ := List.mem_map.1 hb
        exact ⟨i, le_rfl, _, rfl⟩
      · rw [if_neg hobj] at hb
        simp at hb
        exact ⟨i, le_rfl, [], by simp [hb]⟩
    · obtain ⟨j, hj, t, ht⟩ := ih (i + 1) p hb
      exact ⟨j, by omega, t, ht⟩

/-- Inversion for a good field-list head. -/
theorem goodFields_cons {k : String} {v : JVal} {rest : List (String × JVal)}
    (h : goodFields ((k, v) :: rest) = true) :
    goodKey k = true ∧ goodVal v = true ∧ (∀ q ∈ rest, q.1 ≠ k) ∧
      goodFields rest = true := by
  rw [goodFields] at h
  simp only [Bool.and_eq_true, Bool.not_eq_true', List.any_eq_false, beq_iff_eq] at h
  exact ⟨h.1.1.1, h.1.1.2, h.1.2, h.2⟩

/-- A good object's paths start with a dotted segment. -/
theorem pathsEntry_obj_head (fs : List (String × JVal)) (h : goodVal (.jobj fs) = true) :
    ∃ k sg s t, pathsEntry (.jobj fs) = (Seg.dot k :: sg, s) :: t := by
  have hfne : pathsFields fs ≠ [] := by
    intro hnil
    apply pathsEntry_ne_nil _ h
    rw [pathsEntry, hnil]
    rfl
  obtain ⟨e, t, het⟩ := List.exists_cons_of_ne_nil hfne
  exact ⟨e.1.1, e.1.2, e.2, _, by rw [pathsEntry, het]; rfl⟩

/-- A good array's paths start with a bracket segment. -/
theorem pathsEntry_arr_head (items : List JVal) (h : goodVal (.jarr items) = true) :
    ∃ j sg s t, pathsEntry (.jarr items) = (Seg.idx j :: sg, s) :: t := by
  have hne : pathsItems items 0 ≠ [] := by
    rw [goodVal, Bool.and_eq_true] at h
    exact pathsItems_ne_nil items 0 h.2 (by simpa using h.1)
  obtain ⟨e, t, het⟩ := List.exists_cons_of_ne_nil hne
  obtain ⟨j, hj, t', ht'⟩ := pathsItems_idx items 0 e (by rw [het]; simp)
  refine ⟨j, t', e.2, t, ?_⟩
  rw [pathsEntry, het, ← ht']

mutual

/-- On good values, structured key paths determine the value. -/
theorem pathsEntry_inj (v₁ v₂ : JVal) (h₁ : goodVal v₁ = true) (h₂ : goodVal v₂ = true)
    (heq : pathsEntry v₁ = pathsEntry v₂) : v₁ = v₂ := by
  cases v₁ with
  | jundef => simp [goodVal] at h₁
  | jnull => simp [goodVal] at h₁
  | jobj fs₁ =>
    cases v₂ with
    | jundef => simp [goodVal] at h₂
    | jnull => simp [goodVal] at h₂
    | jobj fs₂ =>
      rw [pathsEntry, pathsEntry] at heq
      have hfe : pathsFields fs₁ = pathsFields fs₂ := by
        refine List.map_injective_iff.2 ?_ heq
        rintro ⟨⟨a, b⟩, c⟩ ⟨⟨d, e⟩, f⟩ hpq
        simp_all
      rw [goodVal, Bool.and_eq_true] at h₁ h₂
      rw [pathsFields_inj fs₁ fs₂ h₁.2 h₂.2 hfe]
    | jarr items₂ =>
      exfalso
      obtain ⟨k, sg, s, t, hobj⟩ := pathsEntry_obj_head fs₁ h₁
      obtain ⟨j, sg', s', t', harr⟩ := pathsEntry_arr_head items₂ h₂
      rw [hobj, harr] at heq
      simp at heq
    | jbool b =>
      exfalso
      obtain ⟨k, sg, s, t, hobj⟩ := pathsEntry_obj_head fs₁ h₁
      rw [hobj] at heq
      simp [pathsEntry] at heq
    | jnum n =>
      exfalso
      obtain ⟨k, sg, s, t, hobj⟩ := pathsEntry_obj_head fs₁ h₁
      rw [hobj] at heq
      simp [pathsEntry] at heq
    | jstr str =>
      exfalso
      obtain ⟨k, sg, s, t, hobj⟩ := pathsEntry_obj_head fs₁ h₁
      rw [hobj] at heq
      simp [pathsEntry] at heq
  | jarr items₁ =>
    cases v₂ with
    | jundef => simp [goodVal] at h₂
    | jnull => simp [goodVal] at h₂
    | jarr items₂ =>
      rw [pathsEntry, pathsEntry] at heq
      rw [goodVal, Bool.and_eq_true] at h₁ h₂
      rw [pathsItems_inj items₁ items₂ 0 h₁.2 h₂.2 heq]
    | jobj fs₂ =>
      exfalso
      obtain ⟨j, sg', s', t', harr⟩ := pathsEntry_arr_head items₁ h₁
      obtain ⟨k, sg, s, t, hobj⟩ := pathsEntry_obj_head fs₂ h₂
      rw [hobj, harr] at heq
      simp at heq
    | jbool b =>
      exfalso
      obtain ⟨j, sg', s', t', harr⟩ := pathsEntry_arr_head items₁ h₁
      rw [harr] at heq
      simp [pathsEntry] at heq
    | jnum n =>
      exfalso
      obtain ⟨j, sg', s', t', harr⟩ := pathsEntry_arr_head items₁ h₁
      rw [harr] at heq
      simp [pathsEntry] at heq
    | jstr str =>
      exfalso
      obtain ⟨j, sg', s', t', harr⟩ := pathsEntry_arr_head items₁ h₁
      rw [harr] at heq
      simp [pathsEntry] at heq
  | jbool b₁ =>
    cases v₂ with
    | jundef => simp [goodVal] at h₂
    | jnull => simp [goodVal] at h₂
    | jobj fs₂ =>
      exfalso
      obtain ⟨k, sg, s, t, hobj⟩ := pathsEntry_obj_head fs₂ h₂
      rw [hobj] at heq
      simp [pathsEntry] at heq
    | jarr items₂ =>
      exfalso
      obtain ⟨j, sg', s', t', harr⟩ := pathsEntry_arr_head items₂ h₂
      rw [harr] at heq
      simp [pathsEntry] at heq
    | jbool b₂ => simp_all [pathsEntry]
    | jnum n₂ => simp_all [pathsEntry]
    | jstr s₂ => simp_all [pathsEntry]
  | jnum n₁ =>
    cases v₂ with
    | jundef => simp [goodVal] at h₂
    | jnull => simp [goodVal] at h₂
    | jobj fs₂ =>
      exfalso
      obtain ⟨k, sg, s, t, hobj⟩ := pathsEntry_obj_head fs₂ h₂
      rw [hobj] at heq
      simp [pathsEntry] at heq
    | jarr items₂ =>
      exfalso
      obtain ⟨j, sg', s', t', harr⟩ := pathsEntry_arr_head items₂ h₂
      rw [harr] at heq
      simp [pathsEntry] at heq
    | jbool b₂ => simp_all [pathsEntry]
    | jnum n₂ => simp_all [pathsEntry]
    | jstr s₂ => simp_all [pathsEntry]
  | jstr s₁ =>
    cases v₂ with
    | jundef => simp [goodVal] at h₂
    | jnull => simp [goodVal] at h₂
    | jobj fs₂ =>
      exfalso
      obtain ⟨k, sg, s, t, hobj⟩ := pathsEntry_obj_head fs₂ h₂
      rw [hobj] at heq
      simp [pathsEntry] at heq
    | jarr items₂ =>
      exfalso
      obtain ⟨j, sg', s', t', harr⟩ := pathsEntry_arr_head items₂ h₂
      rw [harr] at heq
      simp [pathsEntry] at heq
    | jbool b₂ => simp_all [pathsEntry]
    | jnum n₂ => simp_all [pathsEntry]
    | jstr s₂ => simp_all [pathsEntry]

/-- On good field lists, structured key paths determine the fields. -/
theorem pathsFields_inj (fs₁ fs₂ : List (String × JVal)) (h₁ : goodFields fs₁ = true)
    (h₂ : goodFields fs₂ = true) (heq : pathsFields fs₁ = pathsFields fs₂) :
    fs₁ = fs₂ := by
  match fs₁, fs₂ with
  | [], [] => rfl
  | [], (k₂, v₂) :: r₂ =>
    exact absurd (by rw [← heq]; rfl) (pathsFields_ne_nil _ h₂ (by simp))
  | (k₁, v₁) :: r₁, [] =>
    exact absurd (by rw [heq]; rfl) (pathsFields_ne_nil _ h₁ (by simp))
  | (k₁, v₁) :: r₁, (k₂, v₂) :: r₂ =>
    obtain ⟨hk₁, hv₁, hnd₁, hr₁⟩ := goodFields_cons h₁
    obtain ⟨hk₂, hv₂, hnd₂, hr₂⟩ := goodFields_cons h₂
    rw [pathsFields, pathsFields] at heq
    obtain ⟨e₁, t₁, he₁⟩ := List.exists_cons_of_ne_nil (pathsEntry_ne_nil v₁ hv₁)
    obtain ⟨e₂, t₂, he₂⟩ := List.exists_cons_of_ne_nil (pathsEntry_ne_nil v₂ hv₂)
    have hkk : k₁ = k₂ := by
      rw [he₁, he₂] at heq
      simp only [List.map_cons, List.cons_append, List.cons.injEq, Prod.mk.injEq] at heq
      exact heq.1.1.1
    subst hkk
    obtain ⟨hblocks, hrest⟩ := split_append_by (fun p => p.1.1 = k₁)
      ((pathsEntry v₁).map (fun p => ((k₁, p.1), p.2))) (pathsFields r₁)
      ((pathsEntry v₂).map (fun p => ((k₁, p.1), p.2))) (pathsFields r₂) heq
      (by rintro x hx
          obtain ⟨q, hq, rfl⟩ := List.mem_map.1 hx
          rfl)
      (by rintro x hx
          obtain ⟨q, hq, rfl⟩ := List.mem_map.1 hx
          rfl)
      (by intro x hx hP
          have hmem := List.mem_of_mem_head? hx
          obtain ⟨q, hq, hq1⟩ := List.mem_map.1 (pathsFields_keys r₁ x hmem)
          exact hnd₁ q hq (by rw [hq1, hP]))
      (by intro x hx hP
          have hmem := List.mem_of_mem_head? hx
          obtain ⟨q, hq, hq1⟩ := List.mem_map.1 (pathsFields_keys r₂ x hmem)
          exact hnd₂ q hq (by rw [hq1, hP]))
    have hpe : pathsEntry v₁ = pathsEntry v₂ := by
      refine List.map_injective_iff.2 ?_ hblocks
      rintro ⟨a, b⟩ ⟨c, d⟩ hpq
      simp_all
    rw [pathsEntry_inj v₁ v₂ hv₁ hv₂ hpe, pathsFields_inj r₁ r₂ hr₁ hr₂ hrest]

/-- On good item lists, structured key paths determine the items. -/
theorem pathsItems_inj (is₁ is₂ : List JVal) (i : Nat) (h₁ : goodItems is₁ = true)
    (h₂ : goodItems is₂ = true) (heq : pathsItems is₁ i = pathsItems is₂ i) :
    is₁ = is₂ := by
  match is₁, is₂ with
  | [], [] => rfl
  | [], item₂ :: r₂ =>
    exact absurd (by rw [← heq]; rfl) (pathsItems_ne_nil _ i h₂ (by simp))
  | item₁ :: r₁, [] =>
    exact absurd (by rw [heq]; rfl) (pathsItems_ne_nil _ i h₁ (by simp))
  | item₁ :: r₁, item₂ :: r₂ =>
    obtain ⟨hg₁, hna₁, hr₁⟩ := goodItems_cons h₁
    obtain ⟨hg₂, hna₂, hr₂⟩ := goodItems_cons h₂
    rw [pathsItems, pathsItems] at heq
    obtain ⟨hblocks, hrest⟩ := split_append_by (fun p => ∃ t, p.1 = Seg.idx i :: t)
      _ (pathsItems r₁ (i + 1)) _ (pathsItems r₂ (i + 1)) heq
      (by intro x hx
          by_cases hobj : item₁.typeofObject = true
          · rw [if_pos hobj] at hx
            obtain ⟨q, hq, rfl⟩ := List.mem_map.1 hx
            exact ⟨_, rfl⟩
          · rw [if_neg hobj] at hx
            simp at hx
            exact ⟨[], by rw [hx]⟩)
      (by intro x hx
          by_cases hobj : item₂.typeofObject = true
          · rw [if_pos hobj] at hx
            obtain ⟨q, hq, rfl⟩ := List.mem_map.1 hx
            exact ⟨_, rfl⟩
          · rw [if_neg hobj] at hx
            simp at hx
            exact ⟨[], by rw [hx]⟩)
      (by rintro x hx ⟨t, hP⟩
          obtain ⟨j, hj, t', ht'⟩ :=
            pathsItems_idx r₁ (i + 1) x (List.mem_of_mem_head? hx)
          rw [hP] at ht'
          simp only [List.cons.injEq, Seg.idx.injEq] at ht'
          omega)
      (by rintro x hx ⟨t, hP⟩
          obtain ⟨j, hj, t', ht'⟩ :=
            pathsItems_idx r₂ (i + 1) x (List.mem_of_mem_head? hx)
          rw [hP] at ht'
          simp only [List.cons.injEq, Seg.idx.injEq] at ht'
          omega)
    have hitem : item₁ = item₂ := by
      by_cases hobj₁ : item₁.typeofObject = true <;>
        by_cases hobj₂ : item₂.typeofObject = true
      · rw [if_pos hobj₁, if_pos hobj₂] at hblocks
        have hpv : pathsV item₁ = pathsV item₂ := by
          refine List.map_injective_iff.2 ?_ hblocks
          rintro ⟨⟨a, b⟩, c⟩ ⟨⟨d, e⟩, f⟩ hpq
          simp_all
        cases item₁ with
        | jobj fs₁ =>
          cases item₂ with
          | jobj fs₂ =>
            rw [pathsV, pathsV] at hpv
            rw [goodVal, Bool.and_eq_true] at hg₁ hg₂
            rw [pathsFields_inj fs₁ fs₂ hg₁.2 hg₂.2 hpv]
          | jarr its => simp [JVal.isArray] at hna₂
          | jnull => simp [goodVal] at hg₂
          | jundef => simp [JVal.typeofObject] at hobj₂
          | jbool b => simp [JVal.typeofObject] at hobj₂
          | jnum n => simp [JVal.typeofObject] at hobj₂
          | jstr s => simp [JVal.typeofObject] at hobj₂
        | jarr its => simp [JVal.isArray] at hna₁
        | jnull => simp [goodVal] at hg₁
        | jundef => simp [JVal.typeofObject] at hobj₁
        | jbool b => simp [JVal.typeofObject] at hobj₁
        | jnum n => simp [JVal.typeofObject] at hobj₁
        | jstr s => simp [JVal.typeofObject] at hobj₁
      · exfalso
        rw [if_pos hobj₁, if_neg hobj₂] at hblocks
        cases item₁ with
        | jobj fs₁ =>
          obtain ⟨e, t, het⟩ := List.exists_cons_of_ne_nil
            (by
              intro hnil
              rw [goodVal, Bool.and_eq_true] at hg₁
              exact pathsFields_ne_nil fs₁ hg₁.2 (by simpa using hg₁.1)
                (by rw [show pathsFields fs₁ = pathsV (JVal.jobj fs₁) from rfl]; rw [hnil])
              : pathsV (JVal.jobj fs₁) ≠ [])
          rw [het] at hblocks
          simp at hblocks
        | jarr its => simp [JVal.isArray] at hna₁
        | jnull => simp [goodVal] at hg₁
        | jundef => simp [JVal.typeofObject] at hobj₁
        | jbool b => simp [JVal.typeofObject] at hobj₁
        | jnum n => simp [JVal.typeofObject] at hobj₁
        | jstr s => simp [JVal.typeofObject] at hobj₁
      · exfalso
        rw [if_neg hobj₁, if_pos hobj₂] at hblocks
        cases item₂ with
        | jobj fs₂ =>
          obtain ⟨e, t, het⟩ := List.exists_cons_of_ne_nil
            (by
              intro hnil
              rw [goodVal, Bool.and_eq_true] at hg₂
              exact pathsFields_ne_nil fs₂ hg₂.2 (by simpa using hg₂.1)
                (by rw [show pathsFields fs₂ = pathsV (JVal.jobj fs₂) from rfl]; rw [hnil])
              : pathsV (JVal.jobj fs₂) ≠ [])
          rw [het] at hblocks
          simp at hblocks
        | jarr its => simp [JVal.isArray] at hna₂
        | jnull => simp [goodVal] at hg₂
        | jundef => simp [JVal.typeofObject] at hobj₂
        | jbool b => simp [JVal.typeofObject] at hobj₂
        | jnum n => simp [JVal.typeofObject] at hobj₂
        | jstr s => simp [JVal.typeofObject] at hobj₂
      · rw [if_neg hobj₁, if_neg hobj₂] at hblocks
        simp at hblocks
        exact hblocks
    rw [hitem, pathsItems_inj r₁ r₂ (i + 1) hr₁ hr₂ hrest]

end

/-- Keys of a good field list are non-empty. -/
theorem goodFields_keys_ne (fs : List (String × JVal)) (h : goodFields fs = true) :
    ∀ q ∈ fs, (q.1 : String).isEmpty = false := by
  induction fs with
  | nil => intro q hq; simp at hq
  | cons p rest ih =>
    obtain ⟨k, v⟩ := p
    obtain ⟨hk, -, -, hr⟩ := goodFields_cons h
    intro q hq
    rcases List.mem_cons.1 hq with rfl | hq'
    · rw [goodKey, Bool.and_eq_true] at hk
      simpa using hk.1
    · exact ih hr q hq'

/-- Top-level flattening (empty prefix) renders the structured key paths
with the bare field key in front. -/
theorem flattenFields_paths_top (fs : List (String × JVal))
    (hk : ∀ q ∈ fs, (q.1 : String).isEmpty = false) :
    flattenFields fs "" =
      (pathsFields fs).map (fun p => (p.1.1 ++ renderSegs p.1.2, p.2)) := by
  induction fs with
  | nil => simp [flattenFields, pathsFields]
  | cons q rest ih =>
    obtain ⟨k, v⟩ := q
    rw [flattenFields, pathsFields, List.map_append, List.map_map]
    have hkk : (joinKey "" k).isEmpty = false := by
      have hjk : joinKey "" k = k := rfl
      rw [hjk]
      exact hk (k, v) (by simp)
    rw [flattenEntry_paths k v "" hkk]
    rw [ih (fun q hq => hk q (by simp [hq]))]
    congr 1

/-- Pointwise: rendered key strings of good paths determine the paths. -/
theorem rendered_eq_of_good :
    ∀ (l₁ l₂ : List ((String × List Seg) × JVal)),
      (∀ p ∈ l₁, goodKey p.1.1 = true ∧ p.1.2.all goodSeg = true) →
      (∀ p ∈ l₂, goodKey p.1.1 = true ∧ p.1.2.all goodSeg = true) →
      l₁.map (fun p => (p.1.1 ++ renderSegs p.1.2, p.2)) =
        l₂.map (fun p => (p.1.1 ++ renderSegs p.1.2, p.2)) →
      l₁ = l₂ := by
  intro l₁
  induction l₁ with
  | nil =>
    intro l₂ h1 h2 heq
    cases l₂ with
    | nil => rfl
    | cons p t => simp at heq
  | cons p₁ t₁ ih =>
    intro l₂ h1 h2 heq
    cases l₂ with
    | nil => simp at heq
    | cons p₂ t₂ =>
      simp only [List.map_cons, List.cons.injEq, Prod.mk.injEq] at heq
      obtain ⟨⟨hkey, hs⟩, htail⟩ := heq
      obtain ⟨hk₁, hsg₁⟩ := h1 p₁ (by simp)
      obtain ⟨hk₂, hsg₂⟩ := h2 p₂ (by simp)
      have hd := congrArg String.data hkey
      rw [String.data_append, String.data_append] at hd
      obtain ⟨hka, hra⟩ := token_split segOpen p₁.1.1.data p₂.1.1.data
        (renderSegs p₁.1.2).data (renderSegs p₂.1.2).data hd
        (fun c hc => (goodKey_not_sep _ hk₁ c hc).1)
        (fun c hc => (goodKey_not_sep _ hk₂ c hc).1)
        (renderSegs_head _) (renderSegs_head _)
      have hkeq : p₁.1.1 = p₂.1.1 := String.ext hka
      have hsgeq : p₁.1.2 = p₂.1.2 :=
        renderSegs_inj _ _ hsg₁ hsg₂ (String.ext hra)
      have hp : p₁ = p₂ := by
        obtain ⟨⟨a, b⟩, c⟩ := p₁
        obtain ⟨⟨d, e⟩, f⟩ := p₂
        simp_all
      rw [hp, ih t₂ (fun q hq => h1 q (by simp [hq])) (fun q hq => h2 q (by simp [hq])) htail]

/-- On good objects, the multipart flattening is injective: the rendered
form fields determine the object, so re-nesting by key path can reconstruct
it. -/
theorem flattenForm_inj_good (fs₁ fs₂ : List (String × JVal))
    (h₁ : goodVal (.jobj fs₁) = true) (h₂ : goodVal (.jobj fs₂) = true)
    (heq : flattenForm (.jobj fs₁) = flattenForm (.jobj fs₂)) : fs₁ = fs₂ := by
  rw [goodVal, Bool.and_eq_true] at h₁ h₂
  rw [flattenForm, flattenForm, flattenV, flattenV] at heq
  rw [flattenFields_paths_top fs₁ (goodFields_keys_ne fs₁ h₁.2),
      flattenFields_paths_top fs₂ (goodFields_keys_ne fs₂ h₂.2)] at heq
  exact pathsFields_inj fs₁ fs₂ h₁.2 h₂.2
    (rendered_eq_of_good _ _ (pathsFields_good fs₁ h₁.2) (pathsFields_good fs₂ h₂.2) heq)

/-- C6 counterexample: two different objects with identical (empty)
flattenings — an empty nested object vanishes — so no re-nesting of the
flattened fields can reconstruct every object: the unrestricted round-trip
claim is false. -/
theorem flatten_not_injective :
    flattenForm (JVal.jobj [("a", JVal.jobj [])]) = flattenForm (JVal.jobj []) ∧
    JVal.jobj [("a", JVal.jobj [])] ≠ JVal.jobj [] := by
  constructor
  · rfl
  · intro h
    injection h with h'
    simp at h'

/-- C6 amended: flattening `{a:{b:1}, c:[1,2]}` yields exactly the fields
`a.b=1`, `c[0]=1`, `c[1]=2`; and on objects whose nested objects/arrays are
all non-empty, whose keys avoid `.`, `[`, `]` and duplicates, with no
`null`/`undefined` members and no array directly inside an array, the
flattening is injective — re-nesting the flattened fields by key path
reconstructs the original structure. -/
theorem flatten_example_and_roundtrip :
    flattenForm (JVal.jobj [("a", JVal.jobj [("b", JVal.jnum 1)]),
                            ("c", JVal.jarr [JVal.jnum 1, JVal.jnum 2])])
      = [("a.b", JVal.jnum 1), ("c[0]", JVal.jnum 1), ("c[1]", JVal.jnum 2)] ∧
    (∀ fs₁ fs₂ : List (String × JVal),
      goodVal (.jobj fs₁) = true → goodVal (.jobj fs₂) = true →
      flattenForm (.jobj fs₁) = flattenForm (.jobj fs₂) → fs₁ = fs₂) :=
  ⟨rfl, flattenForm_inj_good⟩

/-- C6 witness: the round-trip conjunct applied at a concrete good
object. -/
theorem flatten_example_and_roundtrip_witness :
    ([("a", JVal.jnum 1)] : List (String × JVal)) = [("a", JVal.jnum 1)] :=
  flatten_example_and_roundtrip.2 [("a", JVal.jnum 1)] [("a", JVal.jnum 1)]
    (by decide) (by decide) rfl

end Kryos
